import Mathlib

/-!
# Verification of the windows-service-backup tool (src/main.py)

Shallow embedding of the program's pure core:

* the timestamp-directory name parser (`datetime.strptime` with the fixed
  format `"%Y-%m-%d %H%M%S"`, constant `TIME_FMT`),
* the retention selection of `cleanup_retention` (which timestamp
  directories get deleted),
* the archiver `zip_path_no_compress` (its effect on the destination file),
* the command runner `run_cmd` and the service operations
  `stop_service` / `start_service`,
* the orchestration in `main` (quiesce, archive, restart, prune), as a
  pure function of the configuration and of oracles describing the
  outcomes of the external commands and filesystem probes.

Machine conventions: Python `int` is modelled as `Int`; `datetime` values
are modelled by their second count in the proleptic Gregorian calendar
(Python compares and subtracts `datetime`s exactly this way);
`timedelta.days` is floor division by 86400, i.e. `Int.fdiv`.
-/

/-! ## Timestamp parsing: `datetime.strptime(name, "%Y-%m-%d %H%M%S")`

CPython compiles the format to the regular expression

  `(?P<Y>\d\d\d\d)-(?P<m>1[0-2]|0[1-9]|[1-9])-(?P<d>3[01]|[12]\d|0[1-9]|[1-9])\s+(?P<H>2[0-3]|[0-1]\d|\d)(?P<M>[0-5]\d|\d)(?P<S>6[0-1]|[0-5]\d|\d)`

(whitespace runs in the format become `\s+`), takes the first match in
backtracking order (alternatives tried left to right), raises unless the
match consumes the whole string, and then builds
`datetime(year, month, day, hour, minute, second)`, which raises unless
`1 <= year`, the day fits the month, and `second <= 59` (the other fields
are already bounded by the pattern).  `main.py` ignores entries whose name
raises (`except` around `strptime`).  We enumerate the pattern matches in
exactly that backtracking order with the `List` monad and keep the head.
Digits and whitespace are modelled at ASCII (non-ASCII digit names are out
of scope of this model). -/

def charVal (c : Char) : Nat := c.toNat - 48

def pyIsSpace (c : Char) : Bool :=
  c = ' ' || c = '\t' || c = '\n' || c = '\x0b' || c = '\x0c' || c = '\r'

/-- `%Y`: exactly four digits. -/
def matchY : List Char → List (Nat × List Char)
  | a :: b :: c :: d :: rest =>
    if a.isDigit && b.isDigit && c.isDigit && d.isDigit then
      [(1000 * charVal a + 100 * charVal b + 10 * charVal c + charVal d, rest)]
    else []
  | _ => []

/-- A literal character of the format. -/
def matchLit (ch : Char) : List Char → List (List Char)
  | c :: rest => if c = ch then [rest] else []
  | [] => []

/-- `%m`: `1[0-2]` then `0[1-9]` then `[1-9]`, in backtracking order. -/
def matchMonth : List Char → List (Nat × List Char)
  | [] => []
  | a :: rest =>
    (match rest with
     | b :: rest2 =>
       (if a = '1' && ('0' ≤ b && b ≤ '2') then [(10 + charVal b, rest2)] else []) ++
       (if a = '0' && ('1' ≤ b && b ≤ '9') then [(charVal b, rest2)] else [])
     | [] => []) ++
    (if '1' ≤ a && a ≤ '9' then [(charVal a, rest)] else [])

/-- `%d`: `3[01]` then `[12]\d` then `0[1-9]` then `[1-9]`. -/
def matchDay : List Char → List (Nat × List Char)
  | [] => []
  | a :: rest =>
    (match rest with
     | b :: rest2 =>
       (if a = '3' && ('0' ≤ b && b ≤ '1') then [(30 + charVal b, rest2)] else []) ++
       (if ('1' ≤ a && a ≤ '2') && b.isDigit then [(10 * charVal a + charVal b, rest2)] else []) ++
       (if a = '0' && ('1' ≤ b && b ≤ '9') then [(charVal b, rest2)] else [])
     | [] => []) ++
    (if '1' ≤ a && a ≤ '9' then [(charVal a, rest)] else [])

/-- `%H`: `2[0-3]` then `[0-1]\d` then `\d`. -/
def matchHour : List Char → List (Nat × List Char)
  | [] => []
  | a :: rest =>
    (match rest with
     | b :: rest2 =>
       (if a = '2' && ('0' ≤ b && b ≤ '3') then [(20 + charVal b, rest2)] else []) ++
       (if ('0' ≤ a && a ≤ '1') && b.isDigit then [(10 * charVal a + charVal b, rest2)] else [])
     | [] => []) ++
    (if a.isDigit then [(charVal a, rest)] else [])

/-- `%M`: `[0-5]\d` then `\d`. -/
def matchMin : List Char → List (Nat × List Char)
  | [] => []
  | a :: rest =>
    (match rest with
     | b :: rest2 =>
       (if ('0' ≤ a && a ≤ '5') && b.isDigit then [(10 * charVal a + charVal b, rest2)] else [])
     | [] => []) ++
    (if a.isDigit then [(charVal a, rest)] else [])

/-- `%S`: `6[0-1]` then `[0-5]\d` then `\d`. -/
def matchSec : List Char → List (Nat × List Char)
  | [] => []
  | a :: rest =>
    (match rest with
     | b :: rest2 =>
       (if a = '6' && ('0' ≤ b && b ≤ '1') then [(60 + charVal b, rest2)] else []) ++
       (if ('0' ≤ a && a ≤ '5') && b.isDigit then [(10 * charVal a + charVal b, rest2)] else [])
     | [] => []) ++
    (if a.isDigit then [(charVal a, rest)] else [])

/-- `\s+`: greedy; the next pattern piece is a digit class, which is
disjoint from whitespace, so maximal munch is exact here. -/
def matchSpaces : List Char → List (List Char)
  | c :: rest => if pyIsSpace c then [rest.dropWhile pyIsSpace] else []
  | [] => []

/-- All complete matches of the compiled `TIME_FMT` pattern against `s`,
in the regex engine's backtracking order.  The engine returns the head. -/
def timeFmtMatches (s : List Char) : List (Nat × Nat × Nat × Nat × Nat × Nat × List Char) :=
  (matchY s).flatMap fun yr =>
  (matchLit '-' yr.2).flatMap fun r2 =>
  (matchMonth r2).flatMap fun mr =>
  (matchLit '-' mr.2).flatMap fun r4 =>
  (matchDay r4).flatMap fun dr =>
  (matchSpaces dr.2).flatMap fun r6 =>
  (matchHour r6).flatMap fun hr =>
  (matchMin hr.2).flatMap fun nr =>
  (matchSec nr.2).map fun sr => (yr.1, mr.1, dr.1, hr.1, nr.1, sr.1, sr.2)

def isLeap (y : Nat) : Bool :=
  (y % 4 = 0 && y % 100 ≠ 0) || y % 400 = 0

def daysInMonth (y m : Nat) : Nat :=
  if m = 2 then (if isLeap y then 29 else 28)
  else if m = 4 || m = 6 || m = 9 || m = 11 then 30
  else 31

/-- Day number of a proleptic-Gregorian date (era-based civil-calendar
formula, valid for `1 ≤ y`); only differences of these values matter. -/
def civilDays (y m d : Nat) : Nat :=
  let yp := if m ≤ 2 then y - 1 else y
  let era := yp / 400
  let yoe := yp % 400
  let mp := if 2 < m then m - 3 else m + 9
  let doy := (153 * mp + 2) / 5 + (d - 1)
  let doe := yoe * 365 + yoe / 4 - yoe / 100 + doy
  era * 146097 + doe

/-- A `datetime` value, as its second count; `datetime` comparison and
subtraction in Python agree with comparison and subtraction of these. -/
def dtSecs (y m d h mi s : Nat) : Int :=
  ((civilDays y m d * 86400 + h * 3600 + mi * 60 + s : Nat) : Int)

/-- `datetime.strptime(s, TIME_FMT)` as used at main.py:254: `some` the
parsed instant, `none` when Python raises (pattern mismatch, trailing
characters, or `datetime` field validation failure). -/
def strptimeSecs (s : String) : Option Int :=
  match timeFmtMatches s.toList with
  | [] => none
  | (y, mo, dy, h, mi, se, rest) :: _ =>
    if rest.isEmpty && 1 ≤ y && dy ≤ daysInMonth y mo && se ≤ 59 then
      some (dtSecs y mo dy h mi se)
    else none

/-! ## Retention selection (`cleanup_retention`, main.py lines 239-291)

The code lists the sub-directories of `drive_dir`, keeps those whose name
parses under `TIME_FMT`, sorts them ascending by parsed time (Python's
stable sort), collects into `to_delete` those with
`(now - t).days > retention_days`, and then, when fewer than `min_copies`
would remain, drops the newest `need` items from `to_delete`
(`to_delete[:-need]`, or everything when `need >= len(to_delete)`).
Each selected directory is then removed; a removal failure is only a
warning.  We embed the selection as a pure function of the listing. -/

structure DirEntry where
  name : String
  isDir : Bool
deriving DecidableEq

/-- `(d, t)` pairs of main.py:251-258: directories whose name parses. -/
def parseEntry (d : DirEntry) : Option (DirEntry × Int) :=
  (strptimeSecs d.name).map (fun t => (d, t))

/-- `parsed` after the sort at main.py:259.  Python's `list.sort` is the
stable ascending sort by the key; `List.insertionSort` with the key order
is the canonical stable sort (a stable ascending sort of a list is unique
as a function), and is structurally recursive, hence computable in the
kernel. -/
def sortedParsed (entries : List DirEntry) : List (DirEntry × Int) :=
  ((entries.filter (fun d => d.isDir)).filterMap parseEntry).insertionSort
    (fun a b => a.2 ≤ b.2)

/-- `(now - t).days` of main.py:268: `timedelta.days` floors. -/
def ageDays (now t : Int) : Int := (now - t).fdiv 86400

/-- The `to_delete` list that `cleanup_retention` finally removes, given
the instant `now` and the listing of `drive_dir`.  Mirrors main.py
lines 249-282, including the `if not parsed: return` early exit. -/
def cleanupToDelete (now retention_days min_copies : Int) (entries : List DirEntry) :
    List (DirEntry × Int) :=
  let parsed := sortedParsed entries
  if parsed.isEmpty then []
  else
    let to_delete := parsed.filter (fun x => decide (retention_days < ageDays now x.2))
    let remaining : Int := (parsed.length : Int) - (to_delete.length : Int)
    if remaining < min_copies then
      let need := min_copies - remaining
      if (to_delete.length : Int) ≤ need then []
      else to_delete.take (to_delete.length - need.toNat)
    else to_delete

/-- The directory listing after a prune whose removals all succeeded. -/
def cleanupSurvivors (now retention_days min_copies : Int) (entries : List DirEntry) :
    List DirEntry :=
  entries.filter
    (fun e => (cleanupToDelete now retention_days min_copies entries).all
      (fun x => decide (x.1 ≠ e)))

/-- The retention policy record of the specification's data model.  The
program itself reads only `retention_days` and `retention_min_copies`
from its configuration (main.py:318-319); nothing in the source reads,
stores or applies a maximum-version count. -/
structure RetentionPolicy where
  days : Int
  min_versions : Int
  max_versions : Int

/-! ## Paths and archive destinations (main.py lines 366-431)

A Windows path is modelled as its `pathlib` drive (for example `"C:"`,
possibly empty) and the component list after the drive and root
separator.  `Path.name` is the last component (empty for a bare drive),
`Path.parent.name` the one before it. -/

structure WPath where
  drive : String
  parts : List String
deriving DecidableEq

def wpathName (p : WPath) : String := p.parts.getLast?.getD ""

def wpathParentName (p : WPath) : String := p.parts.dropLast.getLast?.getD ""

/-- `src.drive.replace(":", "") or "unknown"` (main.py:375 and 419). -/
def driveLetter (p : WPath) : String :=
  let d := String.mk (p.drive.toList.filter (fun c => c ≠ ':'))
  if d = "" then "unknown" else d

/-- `src.parent.name if src.parent.name else fb` (main.py:384 and 426). -/
def parentNameOr (p : WPath) (fb : String) : String :=
  if wpathParentName p = "" then fb else wpathParentName p

/-- Destination of a service-path archive (main.py lines 375-389):
`backup_root / drive_letter / timestamp / parent_name / (src.name + ".zip")`. -/
def nssmDest (backup_root : WPath) (timestamp : String) (src : WPath) : WPath :=
  { drive := backup_root.drive
    parts := backup_root.parts ++
      [driveLetter src, timestamp, parentNameOr src "root", wpathName src ++ ".zip"] }

/-- Destination of a docker-project archive (main.py lines 413-431), where
`src = docker_root / name` and the zip is named after the project. -/
def dockerDest (backup_root : WPath) (timestamp : String) (docker_root : WPath)
    (name : String) : WPath :=
  let src : WPath := { drive := docker_root.drive, parts := docker_root.parts ++ [name] }
  { drive := backup_root.drive
    parts := backup_root.parts ++
      [driveLetter src, timestamp, parentNameOr src "docker", name ++ ".zip"] }

/-- Modelled from the spec (section 4.2 ARCHIVING and section 6), for
comparison with the code's destination: the archive of a source path goes
to `snapshotStoreRoot/<timestampId>/` and, inside it, to
`volume-identifier / path-without-volume-prefix`, "preserving directory
structure", with the archive file named after the source's last
component. -/
def specDest (backup_root : WPath) (timestamp : String) (src : WPath) : WPath :=
  { drive := backup_root.drive
    parts := backup_root.parts ++
      [timestamp, driveLetter src] ++ src.parts.dropLast ++ [wpathName src ++ ".zip"] }

/-! ## The archiver (`zip_path_no_compress`, main.py lines 207-234)

`zipfile.ZipFile(dst_zip_path, mode="w")` opens (creates or truncates)
the destination file at the final path immediately; each `zf.write`
appends one member; an exception while writing leaves the file with the
members written so far, and the `except` branch (main.py:232-234) only
logs and returns `False` — it does not remove the file.  The destination
file state is modelled as `Option (List String)` (`none` = no file at the
destination path, `some ms` = a file holding members `ms`); `walkFiles`
is the member list `os.walk`/`src.name` would produce, and `failAt k`
says the write of member `k` raises. -/

def zip_path_no_compress (_pre : Option (List String)) (walkFiles : List String)
    (failAt : Option Nat) : Option (List String) × Bool :=
  -- the `pre` state is discarded by the mode="w" open
  match failAt with
  | some k =>
    if k < walkFiles.length then (some (walkFiles.take k), false)
    else (some walkFiles, true)
  | none => (some walkFiles, true)

/-! ## Command runner and service operations (main.py lines 85-189)

`run_cmd` shells out; its observable outcome is the completed process
(return code, stdout, stderr), a timeout, or another exception.  Success
is `returncode == 0` and nothing else: no output text is inspected.
`wait_for_service_state` polls `sc query` against real time; its result
is abstracted as a boolean oracle. -/

inductive CmdOutcome
  | completed (returncode : Int) (stdout stderr : String)
  | timedOut (msg : String)
  | raised (msg : String)
deriving DecidableEq

structure RunRes where
  ok : Bool
  stdout : String
  stderr : String
  returncode : Int
deriving DecidableEq

/-- The command runner of main.py lines 85-95 (named after the source
function there). -/
def runCmd : CmdOutcome → RunRes
  | .completed rc out err => ⟨rc == 0, out, err, rc⟩
  | .timedOut m => ⟨false, "", "Timeout: " ++ m, -1⟩
  | .raised m => ⟨false, "", "Exception: " ++ m, -1⟩

/-- `stop_service` (main.py lines 100-113): on `net stop` success the
result is the `wait_for_service_state(..., "STOPPED")` check, otherwise
`False`. -/
def stop_service (netStop : CmdOutcome) (waitStopped : Bool) : Bool :=
  if (runCmd netStop).ok then waitStopped else false

/-- `start_service` (main.py lines 115-126). -/
def start_service (netStart : CmdOutcome) (waitRunning : Bool) : Bool :=
  if (runCmd netStart).ok then waitRunning else false

/-- `stop_docker_compose_project` (main.py lines 157-172): a missing
compose file is an error (`False`). -/
def stop_docker_compose_project (composeExists : Bool) (dockerStop : CmdOutcome) : Bool :=
  if composeExists = false then false
  else (runCmd dockerStop).ok

/-- `start_docker_compose_project` (main.py lines 174-189): a missing
compose file only skips the start (still `False`). -/
def start_docker_compose_project (composeExists : Bool) (dockerStart : CmdOutcome) : Bool :=
  if composeExists = false then false
  else (runCmd dockerStart).ok

/-- The `net stop` outcome for a service that is already stopped: the
command prints "The service is not started." and exits with code 2
(`NET HELPMSG 3521`); there is no zero-exit already-stopped response. -/
def alreadyStoppedOutcome : CmdOutcome :=
  .completed 2 "" "The service is not started.\n\nMore help is available by typing NET HELPMSG 3521.\n"

/-! ## The orchestration (`main`, main.py lines 296-491)

`main` is embedded as a pure function of the configuration, the run's
timestamp string, and oracles giving the outcome of every external
probe and command.  It returns the ordered list of externally visible
actions and the process exit code (`sys.exit(1)` on the abort paths,
`0` on normal return).  Logging, the admin check, config parsing and
the config-snapshot copy (warn-only, main.py:391-399) are outside the
claims and not modelled. -/

structure NssmItem where
  service : Option String
  paths : List WPath

structure Config where
  backup_root : WPath
  retention_days : Int
  retention_min : Int
  nssm : List NssmItem
  docker : List String
  docker_root : WPath

structure Oracles where
  netStop : String → CmdOutcome
  waitStopped : String → Bool
  netStart : String → CmdOutcome
  waitRunning : String → Bool
  composeExists : String → Bool
  dockerStop : String → CmdOutcome
  dockerStart : String → CmdOutcome
  srcExists : WPath → Bool
  dockerSrcExists : String → Bool
  zipOk : WPath → Bool
  dockerZipOk : String → Bool
  now : Int
  dirListing : String → List DirEntry
  rmtreeOk : String → Bool

inductive Ev
  | stopSvc (name : String) (ok : Bool)
  | stopDocker (name : String) (ok : Bool)
  | skipMissing (src : WPath)
  | archive (src : WPath) (dst : WPath) (ok : Bool)
  | startSvc (name : String) (ok : Bool)
  | startDocker (name : String) (ok : Bool)
  | pruneDel (drive : String) (dirName : String) (ok : Bool)
deriving DecidableEq

/-- `item.get("service")` followed by `if not service_name: continue`
(main.py:333-335): absent or empty names are skipped. -/
def effService (i : NssmItem) : Option String :=
  match i.service with
  | none => none
  | some s => if s = "" then none else some s

/-- First loop of `main` (lines 332-345): stop each service, abort on the
first failure. -/
def stopNssmLoop (O : Oracles) : List NssmItem → List Ev × Bool
  | [] => ([], true)
  | i :: rest =>
    match effService i with
    | none => stopNssmLoop O rest
    | some name =>
      if stop_service (O.netStop name) (O.waitStopped name) then
        let r := stopNssmLoop O rest
        (Ev.stopSvc name true :: r.1, r.2)
      else ([Ev.stopSvc name false], false)

/-- Second loop of `main` (lines 347-357): stop each docker project,
abort on the first failure. -/
def stopDockerLoop (O : Oracles) : List String → List Ev × Bool
  | [] => ([], true)
  | name :: rest =>
    if stop_docker_compose_project (O.composeExists name) (O.dockerStop name) then
      let r := stopDockerLoop O rest
      (Ev.stopDocker name true :: r.1, r.2)
    else ([Ev.stopDocker name false], false)

/-- Inner archive loop over one item's paths (lines 369-410): missing
sources are skipped with a warning, a zip failure aborts. -/
def archivePaths (O : Oracles) (R : WPath) (T : String) : List WPath → List Ev × Bool
  | [] => ([], true)
  | src :: rest =>
    if O.srcExists src = false then
      let r := archivePaths O R T rest
      (Ev.skipMissing src :: r.1, r.2)
    else
      let dst := nssmDest R T src
      if O.zipOk src then
        let r := archivePaths O R T rest
        (Ev.archive src dst true :: r.1, r.2)
      else ([Ev.archive src dst false], false)

/-- Archive loop over the service items (lines 366-410). -/
def archiveNssmLoop (O : Oracles) (R : WPath) (T : String) : List NssmItem → List Ev × Bool
  | [] => ([], true)
  | i :: rest =>
    let r := archivePaths O R T i.paths
    if r.2 then
      let r2 := archiveNssmLoop O R T rest
      (r.1 ++ r2.1, r2.2)
    else (r.1, false)

/-- Docker archive loop (lines 412-449): `src = docker_root / name`. -/
def archiveDockerLoop (O : Oracles) (R : WPath) (T : String) (DR : WPath) :
    List String → List Ev × Bool
  | [] => ([], true)
  | name :: rest =>
    if O.dockerSrcExists name = false then
      let src : WPath := ⟨DR.drive, DR.parts ++ [name]⟩
      let r := archiveDockerLoop O R T DR rest
      (Ev.skipMissing src :: r.1, r.2)
    else
      let src : WPath := ⟨DR.drive, DR.parts ++ [name]⟩
      let dst := dockerDest R T DR name
      if O.dockerZipOk name then
        let r := archiveDockerLoop O R T DR rest
        (Ev.archive src dst true :: r.1, r.2)
      else ([Ev.archive src dst false], false)

/-- Restart loop over the services (lines 454-460): every effective item
is attempted; a failure is only logged. -/
def restartNssmLoop (O : Oracles) : List NssmItem → List Ev
  | [] => []
  | i :: rest =>
    match effService i with
    | none => restartNssmLoop O rest
    | some name =>
      Ev.startSvc name (start_service (O.netStart name) (O.waitRunning name)) ::
        restartNssmLoop O rest

/-- Restart loop over the docker projects (lines 462-465). -/
def restartDockerLoop (O : Oracles) : List String → List Ev
  | [] => []
  | name :: rest =>
    Ev.startDocker name
        (start_docker_compose_project (O.composeExists name) (O.dockerStart name)) ::
      restartDockerLoop O rest

/-- `drives_touched` (lines 363, 375-376, 419-420): the drive letters of
the existing sources, as a set.  Python's set iteration order is
unspecified; it is modelled as first-touch order with duplicates removed,
and no claim depends on the order. -/
def touchedDrives (O : Oracles) (cfg : Config) : List String :=
  ((cfg.nssm.flatMap (fun i => i.paths.filter (fun p => O.srcExists p))).map driveLetter ++
    (cfg.docker.filter (fun n => O.dockerSrcExists n)).map
      (fun n => driveLetter ⟨cfg.docker_root.drive, cfg.docker_root.parts ++ [n]⟩)).dedup

/-- Retention phase (lines 467-470): one `cleanup_retention` call per
touched drive; each selected directory is removed independently and a
removal failure is only a warning. -/
def pruneEvents (O : Oracles) (cfg : Config) : List Ev :=
  (touchedDrives O cfg).flatMap fun dl =>
    (cleanupToDelete O.now cfg.retention_days cfg.retention_min (O.dirListing dl)).map
      fun x => Ev.pruneDel dl x.1.name (O.rmtreeOk x.1.name)

structure RunResult where
  evs : List Ev
  exit : Int
deriving DecidableEq

/-- The pipeline of `main` after configuration loading (lines 332-491). -/
def mainRun (cfg : Config) (T : String) (O : Oracles) : RunResult :=
  let q1 := stopNssmLoop O cfg.nssm
  if q1.2 = false then ⟨q1.1, 1⟩
  else
    let q2 := stopDockerLoop O cfg.docker
    if q2.2 = false then ⟨q1.1 ++ q2.1, 1⟩
    else
      let a1 := archiveNssmLoop O cfg.backup_root T cfg.nssm
      if a1.2 = false then ⟨q1.1 ++ q2.1 ++ a1.1, 1⟩
      else
        let a2 := archiveDockerLoop O cfg.backup_root T cfg.docker_root cfg.docker
        if a2.2 = false then ⟨q1.1 ++ q2.1 ++ a1.1 ++ a2.1, 1⟩
        else
          ⟨q1.1 ++ q2.1 ++ a1.1 ++ a2.1 ++ restartNssmLoop O cfg.nssm ++
            restartDockerLoop O cfg.docker ++ pruneEvents O cfg, 0⟩

/-! ## Retention lemmas -/

/-- The age filter of main.py:267-270 on the sorted snapshot list; the
specification's `ageSet`. -/
def ageSet (now days : Int) (entries : List DirEntry) : List (DirEntry × Int) :=
  (sortedParsed entries).filter (fun x => decide (days < ageDays now x.2))

/-- Snapshots surviving a prune, counted among the parsed timestamp
directories. -/
def liveCount (now rd mc : Int) (entries : List DirEntry) : Int :=
  ((sortedParsed entries).length : Int) -
    ((cleanupToDelete now rd mc entries).length : Int)

theorem ageDays_antitone {now t1 t2 : Int} (h : t1 ≤ t2) :
    ageDays now t2 ≤ ageDays now t1 := by
  unfold ageDays
  rw [Int.fdiv_eq_ediv _ (by norm_num), Int.fdiv_eq_ediv _ (by norm_num)]
  exact Int.ediv_le_ediv (by norm_num) (by omega)

theorem sortedParsed_pairwise (entries : List DirEntry) :
    (sortedParsed entries).Pairwise (fun a b : DirEntry × Int => a.2 ≤ b.2) := by
  haveI : IsTotal (DirEntry × Int) (fun a b => a.2 ≤ b.2) :=
    ⟨fun a b => Int.le_total a.2 b.2⟩
  haveI : IsTrans (DirEntry × Int) (fun a b => a.2 ≤ b.2) :=
    ⟨fun _ _ _ h h2 => Int.le_trans h h2⟩
  exact List.sorted_insertionSort _ _

/-- On a list sorted ascending by time, the age filter picks an initial
segment: ages only shrink along the list. -/
theorem filter_old_eq_take (now rd : Int) (P : List (DirEntry × Int))
    (hP : P.Pairwise (fun a b : DirEntry × Int => a.2 ≤ b.2)) :
    P.filter (fun x => decide (rd < ageDays now x.2))
      = P.take (P.countP (fun x => decide (rd < ageDays now x.2))) := by
  induction P with
  | nil => rfl
  | cons x xs ih =>
    rw [List.pairwise_cons] at hP
    by_cases hpx : rd < ageDays now x.2
    · rw [List.filter_cons_of_pos (by simpa using hpx),
        List.countP_cons_of_pos _ _ (by simpa using hpx),
        List.take_succ_cons, ih hP.2]
    · have hall : ∀ y ∈ xs, ¬ (rd < ageDays now y.2) := by
        intro y hy hly
        exact hpx (lt_of_lt_of_le hly (ageDays_antitone (hP.1 y hy)))
      rw [List.filter_cons_of_neg (by simpa using hpx),
        List.countP_cons_of_neg _ _ (by simpa using hpx)]
      have h0 : xs.countP (fun x => decide (rd < ageDays now x.2)) = 0 :=
        List.countP_eq_zero.mpr (by intro a ha; simpa using hall a ha)
      have hnil : xs.filter (fun x => decide (rd < ageDays now x.2)) = [] :=
        List.filter_eq_nil_iff.mpr (by intro a ha; simpa using hall a ha)
      rw [h0, hnil, List.take_zero]

/-- The number of directories `cleanup_retention` deletes, in closed
form over the sorted snapshot list. -/
def cleanupCount (now rd mc : Int) (entries : List DirEntry) : Nat :=
  let P := sortedParsed entries
  let c := P.countP (fun x => decide (rd < ageDays now x.2))
  let rem : Int := (P.length : Int) - (c : Int)
  if rem < mc then (if (c : Int) ≤ mc - rem then 0 else c - (mc - rem).toNat) else c

/-- `cleanup_retention` always deletes an initial segment of the sorted
snapshot list, of length `cleanupCount`. -/
theorem cleanup_eq_take (now rd mc : Int) (entries : List DirEntry) :
    cleanupToDelete now rd mc entries
      = (sortedParsed entries).take (cleanupCount now rd mc entries) := by
  have hpw := sortedParsed_pairwise entries
  have hft := filter_old_eq_take now rd (sortedParsed entries) hpw
  have hlen : ((sortedParsed entries).filter (fun x => decide (rd < ageDays now x.2))).length
      = (sortedParsed entries).countP (fun x => decide (rd < ageDays now x.2)) :=
    (List.countP_eq_length_filter _ _).symm
  have hcle : (sortedParsed entries).countP (fun x => decide (rd < ageDays now x.2))
      ≤ (sortedParsed entries).length := List.countP_le_length _
  unfold cleanupToDelete cleanupCount
  by_cases he : (sortedParsed entries).isEmpty
  · have hnilP : sortedParsed entries = [] := by
      cases hsp : sortedParsed entries with
      | nil => rfl
      | cons a l => rw [hsp] at he; simp [List.isEmpty] at he
    simp [hnilP]
  · simp only [he, Bool.false_eq_true, if_false]
    rw [hlen, hft]
    set c := (sortedParsed entries).countP (fun x => decide (rd < ageDays now x.2)) with hc
    set n := (sortedParsed entries).length with hn
    by_cases h1 : (n : Int) - (c : Int) < mc
    · simp only [h1, if_true]
      by_cases h2 : (c : Int) ≤ mc - ((n : Int) - (c : Int))
      · simp [h2]
      · simp only [h2, if_false]
        rw [List.take_take, min_eq_left (Nat.sub_le _ _)]
    · simp [h1]

/-- Everything `cleanup_retention` deletes comes from the age filter:
its whole-day age (`timedelta.days`) exceeds `retention_days`. -/
theorem cleanup_mem_old (now rd mc : Int) (entries : List DirEntry)
    {x : DirEntry × Int} (hx : x ∈ cleanupToDelete now rd mc entries) :
    rd < ageDays now x.2 := by
  unfold cleanupToDelete at hx
  by_cases he : (sortedParsed entries).isEmpty
  · simp [he] at hx
  · simp only [he, Bool.false_eq_true, if_false] at hx
    split_ifs at hx with h1 h2
    · exact absurd hx (List.not_mem_nil x)
    · have := List.of_mem_filter (List.mem_of_mem_take hx)
      simpa using this
    · have := List.of_mem_filter hx
      simpa using this

/-- Everything `cleanup_retention` deletes is one of the parsed,
sorted timestamp directories. -/
theorem cleanup_mem_sorted (now rd mc : Int) (entries : List DirEntry)
    {x : DirEntry × Int} (hx : x ∈ cleanupToDelete now rd mc entries) :
    x ∈ sortedParsed entries := by
  rw [cleanup_eq_take] at hx
  exact List.mem_of_mem_take hx

/-! ## A concrete snapshot store

Ten timestamped directories aged exactly 1..10 days at the instant
`now20`, plus a stray file and a directory whose name is not a
timestamp (both ignored by the pruner). -/

def store10 : List DirEntry :=
  [⟨"2025-10-10 120000", true⟩, ⟨"2025-10-12 120000", true⟩, ⟨"2025-10-19 120000", true⟩,
   ⟨"2025-10-11 120000", true⟩, ⟨"2025-10-13 120000", true⟩, ⟨"2025-10-14 120000", true⟩,
   ⟨"2025-10-15 120000", true⟩, ⟨"2025-10-16 120000", true⟩, ⟨"2025-10-17 120000", true⟩,
   ⟨"2025-10-18 120000", true⟩, ⟨"log.txt", false⟩, ⟨"not a timestamp", true⟩]

def now20 : Int := dtSecs 2025 10 20 12 0 0

/-- The five snapshots of `store10` strictly older than five whole days
at `now20` (ages 6..10 days), oldest first. -/
def oldestFive : List (DirEntry × Int) :=
  [(⟨"2025-10-10 120000", true⟩, dtSecs 2025 10 10 12 0 0),
   (⟨"2025-10-11 120000", true⟩, dtSecs 2025 10 11 12 0 0),
   (⟨"2025-10-12 120000", true⟩, dtSecs 2025 10 12 12 0 0),
   (⟨"2025-10-13 120000", true⟩, dtSecs 2025 10 13 12 0 0),
   (⟨"2025-10-14 120000", true⟩, dtSecs 2025 10 14 12 0 0)]

/-- The six oldest snapshots of `store10`, oldest first. -/
def oldestSix : List (DirEntry × Int) :=
  oldestFive ++ [(⟨"2025-10-15 120000", true⟩, dtSecs 2025 10 15 12 0 0)]

/-! ## Claims C1, C2, C7 -/

/-- C2: with no maximum cap in play, age-based pruning is shrunk from
the young end so that at least `min_versions` snapshots survive: when
`total - |ageSet|` falls below `min_versions`, the deletion list is
`ageSet` with its newest `min_versions - (total - |ageSet|)` members
dropped (all of them when fewer exist, which is Nat truncation in
`take`), and in every case the live count stays at or above
`min(min_versions, total)`. -/
theorem c2_age_pruning_never_drops_below_min (now : Int) (p : RetentionPolicy)
    (entries : List DirEntry) (_hmax : p.max_versions = 0) :
    ((((sortedParsed entries).length : Int) - ((ageSet now p.days entries).length : Int)
        < p.min_versions →
      cleanupToDelete now p.days p.min_versions entries
        = (ageSet now p.days entries).take
            ((ageSet now p.days entries).length -
              (p.min_versions -
                (((sortedParsed entries).length : Int) -
                  ((ageSet now p.days entries).length : Int))).toNat))
    ∧ min p.min_versions ((sortedParsed entries).length : Int)
        ≤ liveCount now p.days p.min_versions entries) := by
  have hpw := sortedParsed_pairwise entries
  have hcle : (sortedParsed entries).countP (fun x => decide (p.days < ageDays now x.2))
      ≤ (sortedParsed entries).length := List.countP_le_length _
  have hlenAge : (ageSet now p.days entries).length
      = (sortedParsed entries).countP (fun x => decide (p.days < ageDays now x.2)) := by
    unfold ageSet
    exact (List.countP_eq_length_filter _ _).symm
  constructor
  · intro h
    rw [hlenAge] at h ⊢
    rw [cleanup_eq_take]
    unfold ageSet
    rw [filter_old_eq_take now p.days _ hpw, List.take_take]
    congr 1
    simp only [cleanupCount]
    rw [if_pos h]
    split_ifs with h2
    · omega
    · omega
  · have hlen2 : (cleanupToDelete now p.days p.min_versions entries).length
        = min (cleanupCount now p.days p.min_versions entries) (sortedParsed entries).length := by
      rw [cleanup_eq_take]
      exact List.length_take _ _
    unfold liveCount
    rw [hlen2]
    simp only [cleanupCount]
    split_ifs with h1 h2
    · omega
    · omega
    · omega

/-- Witness for C2 on the concrete store: `days = 5`,
`min_versions = 8`, `max_versions = 0`; the age set has 5 members but
only 2 may be deleted, leaving exactly 8 alive. -/
theorem c2_witness :
    (RetentionPolicy.mk 5 8 0).max_versions = 0 ∧
    ((((sortedParsed store10).length : Int) - ((ageSet now20 5 store10).length : Int) < 8 →
      cleanupToDelete now20 5 8 store10
        = (ageSet now20 5 store10).take
            ((ageSet now20 5 store10).length -
              ((8 : Int) -
                (((sortedParsed store10).length : Int) -
                  ((ageSet now20 5 store10).length : Int))).toNat))
    ∧ min (8 : Int) ((sortedParsed store10).length : Int)
        ≤ liveCount now20 5 8 store10) :=
  ⟨rfl, c2_age_pruning_never_drops_below_min now20 ⟨5, 8, 0⟩ store10 rfl⟩

/-- C7 is false as stated: this snapshot is strictly older than
`days = 5` days (by one second), yet with `min_versions = 0` nothing at
all is deleted, because the code compares the floor whole-day age
`(now - t).days = 5`, not the exact age, against `retention_days`. -/
theorem c7_counterexample :
    86400 * 5 < dtSecs 2025 10 10 12 0 0 - dtSecs 2025 10 5 11 59 59
    ∧ cleanupToDelete (dtSecs 2025 10 10 12 0 0) 5 0
        [⟨"2025-10-05 115959", true⟩] = [] := by
  constructor
  · decide
  · decide

/-- C7 amended: the age set is the snapshots whose whole-day age
`(now - t).days` strictly exceeds `policy.days`; on the concrete store
aged exactly 1..10 days with `days = 5, min_versions = 3`, exactly the
five snapshots aged 6..10 days are deleted, oldest first. -/
theorem c7_age_set_is_floor_day_filter :
    (∀ (now rd mc : Int) (entries : List DirEntry) (x : DirEntry × Int),
        x ∈ cleanupToDelete now rd mc entries → rd < ageDays now x.2)
    ∧ cleanupToDelete now20 5 3 store10 = oldestFive :=
  ⟨fun now rd mc entries _ hx => cleanup_mem_old now rd mc entries hx, by decide⟩

/-- C1 is false on the code: there is no `max_versions` anywhere in the
program (its pruner takes only `retention_days` and `min_copies`, and
its configuration has no maximum key), so on the 10-snapshot store the
claimed hard cap of 4 cannot force the six oldest out: the deletion
list is not the six oldest. -/
theorem c1_counterexample :
    cleanupToDelete now20 5 3 store10 ≠ oldestSix := by
  decide

/-- C1 amended: the code has no maximum-version cap; on the concrete
10-snapshot store with `days = 5, min_versions = 3` it deletes exactly
the five snapshots strictly older than five whole days, and no sixth. -/
theorem c1_no_max_versions_cap :
    cleanupToDelete now20 5 3 store10 = oldestFive ∧
    (cleanupToDelete now20 5 3 store10).length = 5 := by
  constructor
  · decide
  · decide

/-! ## Structure lemmas about parsing and the deletion list -/

theorem parseEntry_eq_some {d : DirEntry} {x : DirEntry × Int}
    (h : parseEntry d = some x) : x.1 = d ∧ strptimeSecs d.name = some x.2 := by
  unfold parseEntry at h
  rcases Option.map_eq_some'.mp h with ⟨t, ht, hxt⟩
  constructor
  · rw [← hxt]
  · rw [← hxt]
    exact ht

theorem parseEntry_eq_none {d : DirEntry}
    (h : strptimeSecs d.name = none) : parseEntry d = none := by
  unfold parseEntry
  rw [h]
  rfl

/-- Filtering the input through any predicate on the entry commutes with
parsing: `parseEntry` keeps the entry in the first component. -/
theorem filterMap_parse_filter (q : DirEntry → Bool) (l : List DirEntry) :
    (l.filter q).filterMap parseEntry
      = (l.filterMap parseEntry).filter (fun x => q x.1) := by
  induction l with
  | nil => rfl
  | cons d l ih =>
    cases hpe : parseEntry d with
    | none =>
      by_cases hq : q d
      · rw [List.filter_cons_of_pos hq, List.filterMap_cons, hpe,
          List.filterMap_cons, hpe, ih]
      · rw [List.filter_cons_of_neg hq, List.filterMap_cons, hpe, ih]
    | some x =>
      have hx1 := (parseEntry_eq_some hpe).1
      by_cases hq : q d
      · rw [List.filter_cons_of_pos hq, List.filterMap_cons, hpe,
          List.filterMap_cons, hpe, ih,
          List.filter_cons_of_pos (by rw [hx1]; exact hq)]
      · rw [List.filter_cons_of_neg hq, List.filterMap_cons, hpe, ih,
          List.filter_cons_of_neg (by rw [hx1]; exact hq)]

/-- The first components of the parsed pairs form a sublist of the
input listing. -/
theorem filterMap_parse_fst_sublist (l : List DirEntry) :
    ((l.filterMap parseEntry).map (fun x => x.1)).Sublist l := by
  induction l with
  | nil => simp
  | cons d l ih =>
    rw [List.filterMap_cons]
    cases hpe : parseEntry d with
    | none => exact ih.cons d
    | some x =>
      rw [List.map_cons, (parseEntry_eq_some hpe).1]
      exact ih.cons₂ d

/-- The deletion list depends on the listing only through the parsed,
sorted snapshot list. -/
theorem cleanupToDelete_congr {e1 e2 : List DirEntry}
    (h : sortedParsed e1 = sortedParsed e2) (now rd mc : Int) :
    cleanupToDelete now rd mc e1 = cleanupToDelete now rd mc e2 := by
  unfold cleanupToDelete
  rw [h]

/-- Dropping the entries whose names do not parse does not change the
parsed pair list at all. -/
theorem sortedParsed_drop_unparsed (entries : List DirEntry) :
    sortedParsed (entries.filter (fun e => (strptimeSecs e.name).isSome))
      = sortedParsed entries := by
  unfold sortedParsed
  rw [List.filter_comm]
  congr 1
  induction (entries.filter (fun d => d.isDir)) with
  | nil => rfl
  | cons d l ih =>
    by_cases hd : (strptimeSecs d.name).isSome
    · rw [List.filter_cons_of_pos (by simpa using hd), List.filterMap_cons,
        List.filterMap_cons, ih]
    · have hnone : strptimeSecs d.name = none := by
        cases h2 : strptimeSecs d.name with
        | none => rfl
        | some t => rw [h2] at hd; simp at hd
      rw [List.filter_cons_of_neg (by simpa using hd), List.filterMap_cons,
        parseEntry_eq_none hnone, ih]

/-! ## Claim C10 -/

/-- C10: at a fixed instant the deletion list is an initial segment of
the snapshot list sorted ascending by timestamp; whenever a snapshot is
deleted, every strictly older snapshot is deleted too; only parsed
timestamp directories are ever deleted; and entries whose names do not
parse have no effect on the outcome (they are not counted). -/
theorem c10_prune_deletes_oldest_first (now rd mc : Int) (entries : List DirEntry) :
    cleanupToDelete now rd mc entries
      = (sortedParsed entries).take (cleanupToDelete now rd mc entries).length
    ∧ (∀ x ∈ cleanupToDelete now rd mc entries, ∀ y ∈ sortedParsed entries,
        y.2 < x.2 → y ∈ cleanupToDelete now rd mc entries)
    ∧ (∀ x ∈ cleanupToDelete now rd mc entries,
        x.1.isDir = true ∧ strptimeSecs x.1.name = some x.2)
    ∧ cleanupToDelete now rd mc (entries.filter (fun e => (strptimeSecs e.name).isSome))
        = cleanupToDelete now rd mc entries := by
  have h1 : cleanupToDelete now rd mc entries
      = (sortedParsed entries).take (cleanupToDelete now rd mc entries).length := by
    rw [cleanup_eq_take, List.length_take, ← List.take_take, List.take_length]
  refine ⟨h1, ?_, ?_, ?_⟩
  · intro x hx y hy hlt
    have hpw := sortedParsed_pairwise entries
    have hsplit := List.take_append_drop
      (cleanupToDelete now rd mc entries).length (sortedParsed entries)
    rw [← hsplit] at hpw hy
    rcases List.mem_append.mp hy with hy1 | hy2
    · rw [h1]
      exact hy1
    · exfalso
      rcases List.pairwise_append.mp hpw with ⟨-, -, hcross⟩
      have hxin : x ∈ (sortedParsed entries).take
          (cleanupToDelete now rd mc entries).length := by
        rw [← h1]
        exact hx
      have := hcross x hxin y hy2
      omega
  · intro x hx
    have hxP := cleanup_mem_sorted now rd mc entries hx
    unfold sortedParsed at hxP
    rw [List.mem_insertionSort] at hxP
    rcases List.mem_filterMap.mp hxP with ⟨a, ha, hpa⟩
    rcases parseEntry_eq_some hpa with ⟨hx1, hname⟩
    refine ⟨?_, ?_⟩
    · rw [hx1]
      exact (List.mem_filter.mp ha).2
    · rw [hx1]
      exact hname
  · exact cleanupToDelete_congr (sortedParsed_drop_unparsed entries) now rd mc

/-! ## Claim C8: idempotence of pruning -/

/-- If the age count is zero, or the minimum-copies guard swallows the
whole age set, `cleanup_retention` deletes nothing. -/
theorem cleanup_eq_nil_of (now rd mc : Int) (e : List DirEntry)
    (h : (sortedParsed e).countP (fun x => decide (rd < ageDays now x.2)) = 0
      ∨ (((sortedParsed e).length : Int)
            - ((sortedParsed e).countP (fun x => decide (rd < ageDays now x.2)) : Int) < mc
          ∧ ((sortedParsed e).countP (fun x => decide (rd < ageDays now x.2)) : Int)
            ≤ mc - (((sortedParsed e).length : Int)
                - ((sortedParsed e).countP (fun x => decide (rd < ageDays now x.2)) : Int)))) :
    cleanupToDelete now rd mc e = [] := by
  rw [cleanup_eq_take]
  have hz : cleanupCount now rd mc e = 0 := by
    simp only [cleanupCount]
    rcases h with h | h
    · rw [h]
      split_ifs <;> omega
    · split_ifs with h1 h2
      · rfl
      · omega
      · omega
  rw [hz, List.take_zero]

/-- C8: pruning is idempotent.  If the directory names are distinct (as
they are in a real directory listing) and all selected removals succeed,
a second prune at the same instant with the same policy over the
surviving listing deletes nothing. -/
theorem c8_prune_idempotent (now rd mc : Int) (entries : List DirEntry)
    (hnames : (entries.map DirEntry.name).Nodup) :
    cleanupToDelete now rd mc (cleanupSurvivors now rd mc entries) = [] := by
  have hDP := cleanup_eq_take now rd mc entries
  have hperm : (sortedParsed entries).Perm
      ((entries.filter (fun d => d.isDir)).filterMap parseEntry) :=
    List.perm_insertionSort _ _
  have hc_le : (sortedParsed entries).countP (fun x => decide (rd < ageDays now x.2))
      ≤ (sortedParsed entries).length := List.countP_le_length _
  have hkval : cleanupCount now rd mc entries
      = (if ((sortedParsed entries).length : Int)
            - ((sortedParsed entries).countP (fun x => decide (rd < ageDays now x.2)) : Int) < mc
          then
            (if ((sortedParsed entries).countP (fun x => decide (rd < ageDays now x.2)) : Int)
                ≤ mc - (((sortedParsed entries).length : Int)
                  - ((sortedParsed entries).countP
                      (fun x => decide (rd < ageDays now x.2)) : Int))
              then 0
              else (sortedParsed entries).countP (fun x => decide (rd < ageDays now x.2))
                - (mc - (((sortedParsed entries).length : Int)
                    - ((sortedParsed entries).countP
                        (fun x => decide (rd < ageDays now x.2)) : Int))).toNat)
          else (sortedParsed entries).countP (fun x => decide (rd < ageDays now x.2))) := rfl
  have hkc : cleanupCount now rd mc entries
      ≤ (sortedParsed entries).countP (fun x => decide (rd < ageDays now x.2)) := by
    rw [hkval]
    split_ifs <;> omega
  have hkn : cleanupCount now rd mc entries ≤ (sortedParsed entries).length := by
    omega
  -- the parsed pair list of the surviving listing
  have hsurv : sortedParsed (cleanupSurvivors now rd mc entries)
      = (((entries.filter (fun d => d.isDir)).filterMap parseEntry).filter
          (fun x => (cleanupToDelete now rd mc entries).all
            (fun y => decide (y.1 ≠ x.1)))).insertionSort (fun a b => a.2 ≤ b.2) := by
    unfold cleanupSurvivors sortedParsed
    rw [List.filter_comm, filterMap_parse_filter]
  -- names are distinct along the sorted parsed list
  have hnodupP : ((sortedParsed entries).map (fun x => x.1.name)).Nodup := by
    have h1 : ((entries.filter (fun d => d.isDir)).map DirEntry.name).Nodup :=
      List.Nodup.sublist (List.Sublist.map DirEntry.name (List.filter_sublist entries)) hnames
    have hsub := List.Sublist.map DirEntry.name
      (filterMap_parse_fst_sublist (entries.filter (fun d => d.isDir)))
    rw [List.map_map] at hsub
    have h2 := List.Nodup.sublist hsub h1
    exact (List.Perm.nodup_iff (hperm.map _)).mpr h2
  -- deleted and kept entries have disjoint names
  have hdisj : ∀ z ∈ (sortedParsed entries).take (cleanupCount now rd mc entries),
      ∀ y ∈ (sortedParsed entries).drop (cleanupCount now rd mc entries),
        z.1.name ≠ y.1.name := by
    have h0 := hnodupP
    rw [← List.take_append_drop (cleanupCount now rd mc entries) (sortedParsed entries),
      List.map_append] at h0
    rcases List.nodup_append.mp h0 with ⟨-, -, hdis⟩
    intro z hz y hy hEq
    exact hdis (List.mem_map.mpr ⟨z, hz, rfl⟩) (List.mem_map.mpr ⟨y, hy, hEq.symm⟩)
  -- filtering the sorted list by survivorship removes exactly the taken part
  have hfilterP : (sortedParsed entries).filter
        (fun x => (cleanupToDelete now rd mc entries).all (fun y => decide (y.1 ≠ x.1)))
      = (sortedParsed entries).drop (cleanupCount now rd mc entries) := by
    conv_lhs =>
      rw [← List.take_append_drop (cleanupCount now rd mc entries) (sortedParsed entries)]
    rw [List.filter_append]
    have htake0 : ((sortedParsed entries).take (cleanupCount now rd mc entries)).filter
          (fun x => (cleanupToDelete now rd mc entries).all (fun y => decide (y.1 ≠ x.1)))
        = [] := by
      apply List.filter_eq_nil_iff.mpr
      intro x hx hqx
      have hxD : x ∈ cleanupToDelete now rd mc entries := by
        rw [hDP]
        exact hx
      have := List.all_eq_true.mp hqx x hxD
      simp at this
    have hdropself : ((sortedParsed entries).drop (cleanupCount now rd mc entries)).filter
          (fun x => (cleanupToDelete now rd mc entries).all (fun y => decide (y.1 ≠ x.1)))
        = (sortedParsed entries).drop (cleanupCount now rd mc entries) := by
      apply List.filter_eq_self.mpr
      intro y hy
      apply List.all_eq_true.mpr
      intro z hz
      have hzT : z ∈ (sortedParsed entries).take (cleanupCount now rd mc entries) := by
        rw [← hDP]
        exact hz
      have hzz := hdisj z hzT y hy
      exact decide_eq_true (fun hEq => hzz (congrArg DirEntry.name hEq))
    rw [htake0, hdropself, List.nil_append]
  -- the taken part consists of age-expired snapshots only
  have hcountTake : ((sortedParsed entries).take (cleanupCount now rd mc entries)).countP
        (fun x => decide (rd < ageDays now x.2))
      = cleanupCount now rd mc entries := by
    have hall : ∀ x ∈ (sortedParsed entries).take (cleanupCount now rd mc entries),
        decide (rd < ageDays now x.2) = true := by
      intro x hx
      have hxD : x ∈ cleanupToDelete now rd mc entries := by
        rw [hDP]
        exact hx
      exact decide_eq_true (cleanup_mem_old now rd mc entries hxD)
    rw [List.countP_eq_length.mpr hall, List.length_take]
    omega
  have hsum : (sortedParsed entries).countP (fun x => decide (rd < ageDays now x.2))
      = cleanupCount now rd mc entries
        + ((sortedParsed entries).drop (cleanupCount now rd mc entries)).countP
            (fun x => decide (rd < ageDays now x.2)) := by
    conv_lhs =>
      rw [← List.take_append_drop (cleanupCount now rd mc entries) (sortedParsed entries)]
    rw [List.countP_append, hcountTake]
  -- count and length of the second run's parsed list
  have hLperm : (((entries.filter (fun d => d.isDir)).filterMap parseEntry).filter
        (fun x => (cleanupToDelete now rd mc entries).all (fun y => decide (y.1 ≠ x.1)))).Perm
      ((sortedParsed entries).drop (cleanupCount now rd mc entries)) := by
    rw [← hfilterP]
    exact (List.Perm.filter _ hperm).symm
  have hcount2 : (sortedParsed (cleanupSurvivors now rd mc entries)).countP
        (fun x => decide (rd < ageDays now x.2))
      = (sortedParsed entries).countP (fun x => decide (rd < ageDays now x.2))
        - cleanupCount now rd mc entries := by
    rw [hsurv]
    rw [List.Perm.countP_eq _ (List.perm_insertionSort _ _)]
    rw [List.Perm.countP_eq _ hLperm]
    omega
  have hlen2 : (sortedParsed (cleanupSurvivors now rd mc entries)).length
      = (sortedParsed entries).length - cleanupCount now rd mc entries := by
    rw [hsurv, List.length_insertionSort, List.Perm.length_eq hLperm, List.length_drop]
  -- conclude by the emptiness criterion
  apply cleanup_eq_nil_of
  rw [hcount2, hlen2]
  by_cases h1 : ((sortedParsed entries).length : Int)
      - ((sortedParsed entries).countP (fun x => decide (rd < ageDays now x.2)) : Int) < mc
  · by_cases h2 : ((sortedParsed entries).countP (fun x => decide (rd < ageDays now x.2)) : Int)
        ≤ mc - (((sortedParsed entries).length : Int)
          - ((sortedParsed entries).countP (fun x => decide (rd < ageDays now x.2)) : Int))
    · have hk0 : cleanupCount now rd mc entries = 0 := by
        rw [hkval, if_pos h1, if_pos h2]
      omega
    · have hk3 : cleanupCount now rd mc entries
          = (sortedParsed entries).countP (fun x => decide (rd < ageDays now x.2))
            - (mc - (((sortedParsed entries).length : Int)
                - ((sortedParsed entries).countP
                    (fun x => decide (rd < ageDays now x.2)) : Int))).toNat := by
        rw [hkval, if_pos h1, if_neg h2]
      omega
  · have hk1 : cleanupCount now rd mc entries
        = (sortedParsed entries).countP (fun x => decide (rd < ageDays now x.2)) := by
      rw [hkval, if_neg h1]
    omega

/-! ## Event classification and phase traces -/

def isStopEv : Ev → Bool
  | .stopSvc _ _ => true
  | .stopDocker _ _ => true
  | _ => false

/-- The workload a stop event names, tagged by kind (`true` = service). -/
def stopName : Ev → Option (Bool × String)
  | .stopSvc n _ => some (true, n)
  | .stopDocker n _ => some (false, n)
  | _ => none

def stopOutcome : Ev → Option Bool
  | .stopSvc _ ok => some ok
  | .stopDocker _ ok => some ok
  | _ => none

def startSvcName : Ev → Option String
  | .startSvc n _ => some n
  | _ => none

def startDockerName : Ev → Option String
  | .startDocker n _ => some n
  | _ => none

def isArchiveLike : Ev → Bool
  | .archive _ _ _ => true
  | .skipMissing _ => true
  | _ => false

def isStartEv : Ev → Bool
  | .startSvc _ _ => true
  | .startDocker _ _ => true
  | _ => false

def isPruneEv : Ev → Bool
  | .pruneDel _ _ _ => true
  | _ => false

/-- The stop order `main` would attempt: effective services first (in
list order), then docker projects. -/
def declaredStops (cfg : Config) : List (Bool × String) :=
  (cfg.nssm.filterMap effService).map (fun n => (true, n))
    ++ cfg.docker.map (fun n => (false, n))

/-- The service stop loop either stops every effective service, or stops
an initial segment and ends at the first failure. -/
theorem stopNssmLoop_spec (O : Oracles) (l : List NssmItem) :
    ((stopNssmLoop O l).2 = true ∧
        (stopNssmLoop O l).1
          = (l.filterMap effService).map (fun n => Ev.stopSvc n true))
    ∨ ((stopNssmLoop O l).2 = false ∧
        ∃ pre rest n, l.filterMap effService = pre ++ n :: rest ∧
          (stopNssmLoop O l).1
            = pre.map (fun m => Ev.stopSvc m true) ++ [Ev.stopSvc n false]) := by
  induction l with
  | nil => exact Or.inl ⟨rfl, rfl⟩
  | cons i l ih =>
    cases hsvc : effService i with
    | none =>
      rw [show stopNssmLoop O (i :: l) = stopNssmLoop O l by
          simp [stopNssmLoop, hsvc],
        List.filterMap_cons, hsvc]
      exact ih
    | some name =>
      by_cases hstop : stop_service (O.netStop name) (O.waitStopped name)
      · have heq : stopNssmLoop O (i :: l)
            = (Ev.stopSvc name true :: (stopNssmLoop O l).1, (stopNssmLoop O l).2) := by
          simp only [stopNssmLoop, hsvc, hstop, if_true]
        rw [heq, List.filterMap_cons, hsvc]
        rcases ih with ⟨hb, hevs⟩ | ⟨hb, pre, rest, n, hsplit, hevs⟩
        · exact Or.inl ⟨hb, by rw [List.map_cons, hevs]⟩
        · refine Or.inr ⟨hb, name :: pre, rest, n, ?_, ?_⟩
          · rw [hsplit]
            rfl
          · rw [List.map_cons, hevs]
            rfl
      · have heq : stopNssmLoop O (i :: l) = ([Ev.stopSvc name false], false) := by
          simp only [stopNssmLoop, hsvc, hstop, Bool.false_eq_true, if_false]
        rw [heq, List.filterMap_cons, hsvc]
        exact Or.inr ⟨rfl, [], l.filterMap effService, name, rfl, rfl⟩

/-- The docker stop loop: same shape over the project list. -/
theorem stopDockerLoop_spec (O : Oracles) (l : List String) :
    ((stopDockerLoop O l).2 = true ∧
        (stopDockerLoop O l).1 = l.map (fun n => Ev.stopDocker n true))
    ∨ ((stopDockerLoop O l).2 = false ∧
        ∃ pre rest n, l = pre ++ n :: rest ∧
          (stopDockerLoop O l).1
            = pre.map (fun m => Ev.stopDocker m true) ++ [Ev.stopDocker n false]) := by
  induction l with
  | nil => exact Or.inl ⟨rfl, rfl⟩
  | cons name l ih =>
    by_cases hstop : stop_docker_compose_project (O.composeExists name) (O.dockerStop name)
    · have heq : stopDockerLoop O (name :: l)
          = (Ev.stopDocker name true :: (stopDockerLoop O l).1, (stopDockerLoop O l).2) := by
        simp only [stopDockerLoop, hstop, if_true]
      rw [heq]
      rcases ih with ⟨hb, hevs⟩ | ⟨hb, pre, rest, n, hsplit, hevs⟩
      · exact Or.inl ⟨hb, by rw [List.map_cons, hevs]⟩
      · refine Or.inr ⟨hb, name :: pre, rest, n, ?_, ?_⟩
        · rw [hsplit]
          rfl
        · rw [List.map_cons, hevs]
          rfl
    · have heq : stopDockerLoop O (name :: l) = ([Ev.stopDocker name false], false) := by
        simp only [stopDockerLoop, hstop, Bool.false_eq_true, if_false]
      rw [heq]
      exact Or.inr ⟨rfl, [], l, name, rfl, rfl⟩

/-- The service restart loop attempts every effective service in order,
whatever each attempt returns. -/
theorem restartNssmLoop_names (O : Oracles) (l : List NssmItem) :
    (restartNssmLoop O l).filterMap startSvcName = l.filterMap effService := by
  induction l with
  | nil => rfl
  | cons i l ih =>
    cases hsvc : effService i with
    | none =>
      rw [show restartNssmLoop O (i :: l) = restartNssmLoop O l by
          simp [restartNssmLoop, hsvc],
        List.filterMap_cons, hsvc]
      exact ih
    | some name =>
      have heq : restartNssmLoop O (i :: l)
          = Ev.startSvc name (start_service (O.netStart name) (O.waitRunning name))
              :: restartNssmLoop O l := by
        simp only [restartNssmLoop, hsvc]
      rw [heq, List.filterMap_cons, List.filterMap_cons, hsvc]
      simp only [startSvcName, ih]

/-- The docker restart loop attempts every project in order. -/
theorem restartDockerLoop_names (O : Oracles) (l : List String) :
    (restartDockerLoop O l).filterMap startDockerName = l := by
  induction l with
  | nil => rfl
  | cons name l ih =>
    have heq : restartDockerLoop O (name :: l)
        = Ev.startDocker name (start_docker_compose_project
            (O.composeExists name) (O.dockerStart name)) :: restartDockerLoop O l := rfl
    rw [heq, List.filterMap_cons]
    simp only [startDockerName, ih]

theorem filterMap_stopName_svc (ns : List String) :
    (ns.map (fun n => Ev.stopSvc n true)).filterMap stopName
      = ns.map (fun n => ((true : Bool), n)) := by
  induction ns with
  | nil => rfl
  | cons a ns ih => simp [stopName, ih]

theorem filterMap_stopName_docker (ns : List String) :
    (ns.map (fun n => Ev.stopDocker n true)).filterMap stopName
      = ns.map (fun n => ((false : Bool), n)) := by
  induction ns with
  | nil => rfl
  | cons a ns ih => simp [stopName, ih]

theorem stopOutcome_svc_true (ns : List String) :
    ∀ e ∈ ns.map (fun n => Ev.stopSvc n true), stopOutcome e = some true := by
  intro e he
  rcases List.mem_map.mp he with ⟨m, -, rfl⟩
  rfl

theorem stopOutcome_docker_true (ns : List String) :
    ∀ e ∈ ns.map (fun n => Ev.stopDocker n true), stopOutcome e = some true := by
  intro e he
  rcases List.mem_map.mp he with ⟨m, -, rfl⟩
  rfl

theorem isStopEv_svc_map (ns : List String) :
    ∀ e ∈ ns.map (fun n => Ev.stopSvc n true), isStopEv e = true := by
  intro e he
  rcases List.mem_map.mp he with ⟨m, -, rfl⟩
  rfl

theorem isStopEv_docker_map (ns : List String) :
    ∀ e ∈ ns.map (fun n => Ev.stopDocker n true), isStopEv e = true := by
  intro e he
  rcases List.mem_map.mp he with ⟨m, -, rfl⟩
  rfl

/-! ## Claim C3 -/

/-- C3: if any stop fails during quiescing, the run exits with status 1;
every event of the run is a stop attempt — no source path is archived,
no workload is ever (re)started, nothing is pruned; the attempted stops
are an initial segment of the declared order (services in list order,
then docker projects); the final attempt is the failing one and every
earlier attempt succeeded, so no stop is attempted after the failure. -/
theorem c3_quiesce_failure_aborts (cfg : Config) (T : String) (O : Oracles)
    (h : (stopNssmLoop O cfg.nssm).2 = false ∨ (stopDockerLoop O cfg.docker).2 = false) :
    (mainRun cfg T O).exit = 1
    ∧ (∀ ev ∈ (mainRun cfg T O).evs, isStopEv ev = true)
    ∧ (mainRun cfg T O).evs.filterMap stopName
        = (declaredStops cfg).take ((mainRun cfg T O).evs.filterMap stopName).length
    ∧ (∃ e, (mainRun cfg T O).evs.getLast? = some e ∧ stopOutcome e = some false)
    ∧ (∀ e ∈ (mainRun cfg T O).evs.dropLast, stopOutcome e = some true) := by
  by_cases hq1 : (stopNssmLoop O cfg.nssm).2 = false
  · have hrun : mainRun cfg T O = ⟨(stopNssmLoop O cfg.nssm).1, 1⟩ := by
      simp [mainRun, hq1]
    rcases stopNssmLoop_spec O cfg.nssm with ⟨hb, -⟩ | ⟨-, pre, rest, n, hsplit, hevs⟩
    · rw [hb] at hq1
      exact absurd hq1 (by simp)
    · rw [hrun, hevs]
      refine ⟨rfl, ?_, ?_, ?_, ?_⟩
      · intro ev hev
        rcases List.mem_append.mp hev with h2 | h2
        · exact isStopEv_svc_map pre ev h2
        · rw [List.mem_singleton.mp h2]
          rfl
      · rw [List.filterMap_append, filterMap_stopName_svc]
        have hsingle : List.filterMap stopName [Ev.stopSvc n false] = [((true : Bool), n)] := rfl
        rw [hsingle]
        unfold declaredStops
        rw [hsplit, List.map_append]
        have hlen : (pre.map (fun n => ((true : Bool), n)) ++ [((true : Bool), n)]).length
            = (pre.map (fun n => ((true : Bool), n))).length + 1 := by
          simp
        rw [hlen, List.append_assoc]
        rw [List.take_append 1]
        simp [List.take_succ_cons]
      · exact ⟨Ev.stopSvc n false, List.getLast?_concat _, rfl⟩
      · rw [List.dropLast_concat]
        exact stopOutcome_svc_true pre
  · have hq1t : (stopNssmLoop O cfg.nssm).2 = true := by
      revert hq1
      cases (stopNssmLoop O cfg.nssm).2 <;> simp
    have hq2 : (stopDockerLoop O cfg.docker).2 = false := by
      rcases h with h | h
      · exact absurd h hq1
      · exact h
    have hrun : mainRun cfg T O
        = ⟨(stopNssmLoop O cfg.nssm).1 ++ (stopDockerLoop O cfg.docker).1, 1⟩ := by
      simp [mainRun, hq1t, hq2]
    rcases stopNssmLoop_spec O cfg.nssm with ⟨-, hevs1⟩ | ⟨hb, -⟩
    swap
    · rw [hb] at hq1t
      exact absurd hq1t (by simp)
    rcases stopDockerLoop_spec O cfg.docker with ⟨hb2, -⟩ | ⟨-, pre2, rest2, n, hsplit2, hevs2⟩
    · rw [hb2] at hq2
      exact absurd hq2 (by simp)
    rw [hrun, hevs1, hevs2]
    dsimp only
    refine ⟨rfl, ?_, ?_, ?_, ?_⟩
    · intro ev hev
      rcases List.mem_append.mp hev with h2 | h2
      · exact isStopEv_svc_map _ ev h2
      · rcases List.mem_append.mp h2 with h3 | h3
        · exact isStopEv_docker_map pre2 ev h3
        · rw [List.mem_singleton.mp h3]
          rfl
    · rw [List.filterMap_append, List.filterMap_append, filterMap_stopName_svc,
        filterMap_stopName_docker]
      have hsingle : List.filterMap stopName [Ev.stopDocker n false] = [((false : Bool), n)] := rfl
      rw [hsingle]
      unfold declaredStops
      rw [hsplit2, List.map_append]
      have hlen : ((cfg.nssm.filterMap effService).map (fun n => ((true : Bool), n))).length
            + ((pre2.map (fun n => ((false : Bool), n)) ++ [((false : Bool), n)]).length)
          = ((cfg.nssm.filterMap effService).map (fun n => ((true : Bool), n))).length
            + ((pre2.map (fun n => ((false : Bool), n))).length + 1) := by
        simp
      rw [List.length_append, hlen, ← List.append_assoc, List.take_append]
      rw [List.append_assoc]
      congr 1
      rw [List.take_append 1]
      simp [List.take_succ_cons]
    · refine ⟨Ev.stopDocker n false, ?_, rfl⟩
      rw [← List.append_assoc]
      exact List.getLast?_concat _
    · rw [← List.append_assoc, List.dropLast_concat]
      intro e he
      rcases List.mem_append.mp he with h2 | h2
      · exact stopOutcome_svc_true _ e h2
      · exact stopOutcome_docker_true pre2 e h2

/-! ## Claim C9 -/

theorem startNames_none_of_not_start {ev : Ev} (h : isStartEv ev = false) :
    startSvcName ev = none ∧ startDockerName ev = none := by
  cases ev <;> simp_all [isStartEv, startSvcName, startDockerName]

theorem stopNssmLoop_no_start (O : Oracles) (l : List NssmItem) :
    ∀ ev ∈ (stopNssmLoop O l).1, isStartEv ev = false := by
  rcases stopNssmLoop_spec O l with ⟨-, hevs⟩ | ⟨-, pre, rest, n, -, hevs⟩ <;>
    rw [hevs] <;> intro ev hev
  · rcases List.mem_map.mp hev with ⟨m, -, rfl⟩
    rfl
  · rcases List.mem_append.mp hev with h2 | h2
    · rcases List.mem_map.mp h2 with ⟨m, -, rfl⟩
      rfl
    · rw [List.mem_singleton.mp h2]
      rfl

theorem stopDockerLoop_no_start (O : Oracles) (l : List String) :
    ∀ ev ∈ (stopDockerLoop O l).1, isStartEv ev = false := by
  rcases stopDockerLoop_spec O l with ⟨-, hevs⟩ | ⟨-, pre, rest, n, -, hevs⟩ <;>
    rw [hevs] <;> intro ev hev
  · rcases List.mem_map.mp hev with ⟨m, -, rfl⟩
    rfl
  · rcases List.mem_append.mp hev with h2 | h2
    · rcases List.mem_map.mp h2 with ⟨m, -, rfl⟩
      rfl
    · rw [List.mem_singleton.mp h2]
      rfl

theorem archivePaths_kinds (O : Oracles) (R : WPath) (T : String) (ps : List WPath) :
    ∀ ev ∈ (archivePaths O R T ps).1, isArchiveLike ev = true := by
  induction ps with
  | nil =>
    intro ev hev
    exact absurd hev (List.not_mem_nil ev)
  | cons p ps ih =>
    intro ev hev
    by_cases hex : O.srcExists p = false
    · rw [show archivePaths O R T (p :: ps)
            = (Ev.skipMissing p :: (archivePaths O R T ps).1, (archivePaths O R T ps).2) by
          simp [archivePaths, hex]] at hev
      rcases List.mem_cons.mp hev with rfl | h2
      · rfl
      · exact ih ev h2
    · by_cases hz : O.zipOk p
      · rw [show archivePaths O R T (p :: ps)
              = (Ev.archive p (nssmDest R T p) true :: (archivePaths O R T ps).1,
                  (archivePaths O R T ps).2) by
            simp [archivePaths, hex, hz]] at hev
        rcases List.mem_cons.mp hev with rfl | h2
        · rfl
        · exact ih ev h2
      · rw [show archivePaths O R T (p :: ps)
              = ([Ev.archive p (nssmDest R T p) false], false) by
            simp [archivePaths, hex, hz]] at hev
        rw [List.mem_singleton.mp hev]
        rfl

theorem archiveNssmLoop_kinds (O : Oracles) (R : WPath) (T : String) (l : List NssmItem) :
    ∀ ev ∈ (archiveNssmLoop O R T l).1, isArchiveLike ev = true := by
  induction l with
  | nil =>
    intro ev hev
    exact absurd hev (List.not_mem_nil ev)
  | cons i l ih =>
    intro ev hev
    by_cases hr : (archivePaths O R T i.paths).2
    · rw [show archiveNssmLoop O R T (i :: l)
            = ((archivePaths O R T i.paths).1 ++ (archiveNssmLoop O R T l).1,
                (archiveNssmLoop O R T l).2) by
          simp [archiveNssmLoop, hr]] at hev
      rcases List.mem_append.mp hev with h2 | h2
      · exact archivePaths_kinds O R T i.paths ev h2
      · exact ih ev h2
    · rw [show archiveNssmLoop O R T (i :: l) = ((archivePaths O R T i.paths).1, false) by
          simp [archiveNssmLoop, hr]] at hev
      exact archivePaths_kinds O R T i.paths ev hev

theorem archiveDockerLoop_kinds (O : Oracles) (R : WPath) (T : String) (DR : WPath)
    (l : List String) :
    ∀ ev ∈ (archiveDockerLoop O R T DR l).1, isArchiveLike ev = true := by
  induction l with
  | nil =>
    intro ev hev
    exact absurd hev (List.not_mem_nil ev)
  | cons name l ih =>
    intro ev hev
    by_cases hex : O.dockerSrcExists name = false
    · rw [show archiveDockerLoop O R T DR (name :: l)
            = (Ev.skipMissing ⟨DR.drive, DR.parts ++ [name]⟩
                :: (archiveDockerLoop O R T DR l).1, (archiveDockerLoop O R T DR l).2) by
          simp [archiveDockerLoop, hex]] at hev
      rcases List.mem_cons.mp hev with rfl | h2
      · rfl
      · exact ih ev h2
    · by_cases hz : O.dockerZipOk name
      · rw [show archiveDockerLoop O R T DR (name :: l)
              = (Ev.archive ⟨DR.drive, DR.parts ++ [name]⟩ (dockerDest R T DR name) true
                  :: (archiveDockerLoop O R T DR l).1, (archiveDockerLoop O R T DR l).2) by
            simp [archiveDockerLoop, hex, hz]] at hev
        rcases List.mem_cons.mp hev with rfl | h2
        · rfl
        · exact ih ev h2
      · rw [show archiveDockerLoop O R T DR (name :: l)
              = ([Ev.archive ⟨DR.drive, DR.parts ++ [name]⟩ (dockerDest R T DR name) false],
                  false) by
            simp [archiveDockerLoop, hex, hz]] at hev
        rw [List.mem_singleton.mp hev]
        rfl

theorem pruneEvents_kinds (O : Oracles) (cfg : Config) :
    ∀ ev ∈ pruneEvents O cfg, isPruneEv ev = true := by
  intro ev hev
  unfold pruneEvents at hev
  rcases List.mem_flatMap.mp hev with ⟨dl, -, h2⟩
  rcases List.mem_map.mp h2 with ⟨x, -, rfl⟩
  rfl

theorem isArchiveLike_not_start {ev : Ev} (h : isArchiveLike ev = true) :
    isStartEv ev = false := by
  cases ev <;> simp_all [isArchiveLike, isStartEv]

theorem isPruneEv_not_start {ev : Ev} (h : isPruneEv ev = true) :
    isStartEv ev = false := by
  cases ev <;> simp_all [isPruneEv, isStartEv]

theorem restartNssmLoop_no_docker_start (O : Oracles) (l : List NssmItem) :
    (restartNssmLoop O l).filterMap startDockerName = [] := by
  apply List.filterMap_eq_nil_iff.mpr
  intro ev hev
  induction l with
  | nil => exact absurd hev (List.not_mem_nil ev)
  | cons i l ih =>
    cases hsvc : effService i with
    | none =>
      rw [show restartNssmLoop O (i :: l) = restartNssmLoop O l by
          simp [restartNssmLoop, hsvc]] at hev
      exact ih hev
    | some name =>
      rw [show restartNssmLoop O (i :: l)
            = Ev.startSvc name (start_service (O.netStart name) (O.waitRunning name))
                :: restartNssmLoop O l by
          simp only [restartNssmLoop, hsvc]] at hev
      rcases List.mem_cons.mp hev with rfl | h2
      · rfl
      · exact ih h2

theorem restartDockerLoop_no_svc_start (O : Oracles) (l : List String) :
    (restartDockerLoop O l).filterMap startSvcName = [] := by
  apply List.filterMap_eq_nil_iff.mpr
  intro ev hev
  induction l with
  | nil => exact absurd hev (List.not_mem_nil ev)
  | cons name l ih =>
    rcases List.mem_cons.mp hev with rfl | h2
    · rfl
    · exact ih h2

/-- The workload a restart event names, tagged by kind (`true` =
service), mirroring `stopName`. -/
def startName : Ev → Option (Bool × String)
  | .startSvc n _ => some (true, n)
  | .startDocker n _ => some (false, n)
  | _ => none

theorem startName_none_of_not_start {ev : Ev} (h : isStartEv ev = false) :
    startName ev = none := by
  cases ev <;> simp_all [isStartEv, startName]

/-- The service restart loop, projected to tagged names: all effective
services, in list order. -/
theorem restartNssmLoop_startName (O : Oracles) (l : List NssmItem) :
    (restartNssmLoop O l).filterMap startName
      = (l.filterMap effService).map (fun n => ((true : Bool), n)) := by
  induction l with
  | nil => rfl
  | cons i l ih =>
    cases hsvc : effService i with
    | none =>
      rw [show restartNssmLoop O (i :: l) = restartNssmLoop O l by
          simp [restartNssmLoop, hsvc],
        List.filterMap_cons, hsvc]
      exact ih
    | some name =>
      have heq : restartNssmLoop O (i :: l)
          = Ev.startSvc name (start_service (O.netStart name) (O.waitRunning name))
              :: restartNssmLoop O l := by
        simp only [restartNssmLoop, hsvc]
      rw [heq, List.filterMap_cons, List.filterMap_cons, hsvc]
      simp only [startName, ih, List.map_cons]

/-- The docker restart loop, projected to tagged names: all projects,
in list order. -/
theorem restartDockerLoop_startName (O : Oracles) (l : List String) :
    (restartDockerLoop O l).filterMap startName
      = l.map (fun n => ((false : Bool), n)) := by
  induction l with
  | nil => rfl
  | cons name l ih =>
    have heq : restartDockerLoop O (name :: l)
        = Ev.startDocker name (start_docker_compose_project
            (O.composeExists name) (O.dockerStart name)) :: restartDockerLoop O l := rfl
    rw [heq, List.filterMap_cons]
    simp only [startName, ih, List.map_cons]

/-- C9: once quiescing and archiving have both succeeded, the run exits
with status 0 no matter what the restart and prune oracles return, and
the restart phase attempts every effective service and every docker
project, exactly once each and in the same declared order as stopping —
all services in list order first, then all docker projects
(`declaredStops`) — with each attempt made regardless of the outcome of
the earlier ones. -/
theorem c9_success_exit_zero_full_restart (cfg : Config) (T : String) (O : Oracles)
    (h1 : (stopNssmLoop O cfg.nssm).2 = true)
    (h2 : (stopDockerLoop O cfg.docker).2 = true)
    (h3 : (archiveNssmLoop O cfg.backup_root T cfg.nssm).2 = true)
    (h4 : (archiveDockerLoop O cfg.backup_root T cfg.docker_root cfg.docker).2 = true) :
    (mainRun cfg T O).exit = 0
    ∧ (mainRun cfg T O).evs.filterMap startSvcName = cfg.nssm.filterMap effService
    ∧ (mainRun cfg T O).evs.filterMap startDockerName = cfg.docker
    ∧ (mainRun cfg T O).evs.filterMap startName = declaredStops cfg := by
  have hrun : mainRun cfg T O
      = ⟨(stopNssmLoop O cfg.nssm).1 ++ (stopDockerLoop O cfg.docker).1
          ++ (archiveNssmLoop O cfg.backup_root T cfg.nssm).1
          ++ (archiveDockerLoop O cfg.backup_root T cfg.docker_root cfg.docker).1
          ++ restartNssmLoop O cfg.nssm ++ restartDockerLoop O cfg.docker
          ++ pruneEvents O cfg, 0⟩ := by
    simp [mainRun, h1, h2, h3, h4]
  have hnil1 : (stopNssmLoop O cfg.nssm).1.filterMap startSvcName = [] :=
    List.filterMap_eq_nil_iff.mpr fun ev hev =>
      (startNames_none_of_not_start (stopNssmLoop_no_start O cfg.nssm ev hev)).1
  have hnil2 : (stopDockerLoop O cfg.docker).1.filterMap startSvcName = [] :=
    List.filterMap_eq_nil_iff.mpr fun ev hev =>
      (startNames_none_of_not_start (stopDockerLoop_no_start O cfg.docker ev hev)).1
  have hnil3 : (archiveNssmLoop O cfg.backup_root T cfg.nssm).1.filterMap startSvcName = [] :=
    List.filterMap_eq_nil_iff.mpr fun ev hev =>
      (startNames_none_of_not_start
        (isArchiveLike_not_start (archiveNssmLoop_kinds O cfg.backup_root T cfg.nssm ev hev))).1
  have hnil4 : (archiveDockerLoop O cfg.backup_root T cfg.docker_root
        cfg.docker).1.filterMap startSvcName = [] :=
    List.filterMap_eq_nil_iff.mpr fun ev hev =>
      (startNames_none_of_not_start (isArchiveLike_not_start
        (archiveDockerLoop_kinds O cfg.backup_root T cfg.docker_root cfg.docker ev hev))).1
  have hnil7 : (pruneEvents O cfg).filterMap startSvcName = [] :=
    List.filterMap_eq_nil_iff.mpr fun ev hev =>
      (startNames_none_of_not_start (isPruneEv_not_start (pruneEvents_kinds O cfg ev hev))).1
  have hnil1d : (stopNssmLoop O cfg.nssm).1.filterMap startDockerName = [] :=
    List.filterMap_eq_nil_iff.mpr fun ev hev =>
      (startNames_none_of_not_start (stopNssmLoop_no_start O cfg.nssm ev hev)).2
  have hnil2d : (stopDockerLoop O cfg.docker).1.filterMap startDockerName = [] :=
    List.filterMap_eq_nil_iff.mpr fun ev hev =>
      (startNames_none_of_not_start (stopDockerLoop_no_start O cfg.docker ev hev)).2
  have hnil3d : (archiveNssmLoop O cfg.backup_root T cfg.nssm).1.filterMap
      startDockerName = [] :=
    List.filterMap_eq_nil_iff.mpr fun ev hev =>
      (startNames_none_of_not_start
        (isArchiveLike_not_start (archiveNssmLoop_kinds O cfg.backup_root T cfg.nssm ev hev))).2
  have hnil4d : (archiveDockerLoop O cfg.backup_root T cfg.docker_root
        cfg.docker).1.filterMap startDockerName = [] :=
    List.filterMap_eq_nil_iff.mpr fun ev hev =>
      (startNames_none_of_not_start (isArchiveLike_not_start
        (archiveDockerLoop_kinds O cfg.backup_root T cfg.docker_root cfg.docker ev hev))).2
  have hnil7d : (pruneEvents O cfg).filterMap startDockerName = [] :=
    List.filterMap_eq_nil_iff.mpr fun ev hev =>
      (startNames_none_of_not_start (isPruneEv_not_start (pruneEvents_kinds O cfg ev hev))).2
  have hnil1c : (stopNssmLoop O cfg.nssm).1.filterMap startName = [] :=
    List.filterMap_eq_nil_iff.mpr fun ev hev =>
      startName_none_of_not_start (stopNssmLoop_no_start O cfg.nssm ev hev)
  have hnil2c : (stopDockerLoop O cfg.docker).1.filterMap startName = [] :=
    List.filterMap_eq_nil_iff.mpr fun ev hev =>
      startName_none_of_not_start (stopDockerLoop_no_start O cfg.docker ev hev)
  have hnil3c : (archiveNssmLoop O cfg.backup_root T cfg.nssm).1.filterMap startName = [] :=
    List.filterMap_eq_nil_iff.mpr fun ev hev =>
      startName_none_of_not_start
        (isArchiveLike_not_start (archiveNssmLoop_kinds O cfg.backup_root T cfg.nssm ev hev))
  have hnil4c : (archiveDockerLoop O cfg.backup_root T cfg.docker_root
        cfg.docker).1.filterMap startName = [] :=
    List.filterMap_eq_nil_iff.mpr fun ev hev =>
      startName_none_of_not_start (isArchiveLike_not_start
        (archiveDockerLoop_kinds O cfg.backup_root T cfg.docker_root cfg.docker ev hev))
  have hnil7c : (pruneEvents O cfg).filterMap startName = [] :=
    List.filterMap_eq_nil_iff.mpr fun ev hev =>
      startName_none_of_not_start (isPruneEv_not_start (pruneEvents_kinds O cfg ev hev))
  rw [hrun]
  refine ⟨rfl, ?_, ?_, ?_⟩
  · dsimp only
    rw [List.filterMap_append, List.filterMap_append, List.filterMap_append,
      List.filterMap_append, List.filterMap_append, List.filterMap_append,
      hnil1, hnil2, hnil3, hnil4, hnil7, restartNssmLoop_names,
      restartDockerLoop_no_svc_start]
    simp
  · dsimp only
    rw [List.filterMap_append, List.filterMap_append, List.filterMap_append,
      List.filterMap_append, List.filterMap_append, List.filterMap_append,
      hnil1d, hnil2d, hnil3d, hnil4d, hnil7d, restartNssmLoop_no_docker_start,
      restartDockerLoop_names]
    simp
  · dsimp only
    rw [List.filterMap_append, List.filterMap_append, List.filterMap_append,
      List.filterMap_append, List.filterMap_append, List.filterMap_append,
      hnil1c, hnil2c, hnil3c, hnil4c, hnil7c, restartNssmLoop_startName,
      restartDockerLoop_startName]
    simp [declaredStops]

/-! ## Concrete runs -/

/-- Three services and one docker project. -/
def cfg3 : Config :=
  { backup_root := ⟨"D:", ["backup"]⟩
    retention_days := 7
    retention_min := 3
    nssm := [⟨some "alpha", [⟨"C:", ["data", "a"]⟩]⟩, ⟨some "beta", []⟩, ⟨some "gamma", []⟩]
    docker := ["proj"]
    docker_root := ⟨"C:", ["ProgramData", "Docker"]⟩ }

/-- Oracles under which stopping the second service fails (`net stop`
exits 2). -/
def oracles3 : Oracles :=
  { netStop := fun n => if n = "beta" then .completed 2 "" "Access is denied." else .completed 0 "" ""
    waitStopped := fun _ => true
    netStart := fun _ => .completed 0 "" ""
    waitRunning := fun _ => true
    composeExists := fun _ => true
    dockerStop := fun _ => .completed 0 "" ""
    dockerStart := fun _ => .completed 0 "" ""
    srcExists := fun _ => true
    dockerSrcExists := fun _ => true
    zipOk := fun _ => true
    dockerZipOk := fun _ => true
    now := now20
    dirListing := fun _ => store10
    rmtreeOk := fun _ => true }

/-- Oracles under which quiescing and archiving succeed but the restart
of the second service fails and every removal fails: the exit code must
still be 0. -/
def oraclesOk : Oracles :=
  { netStop := fun _ => .completed 0 "" ""
    waitStopped := fun _ => true
    netStart := fun n => if n = "beta" then .completed 2 "" "Access is denied." else .completed 0 "" ""
    waitRunning := fun _ => true
    composeExists := fun _ => true
    dockerStop := fun _ => .completed 0 "" ""
    dockerStart := fun _ => .completed 0 "" ""
    srcExists := fun _ => true
    dockerSrcExists := fun _ => true
    zipOk := fun _ => true
    dockerZipOk := fun _ => true
    now := now20
    dirListing := fun _ => store10
    rmtreeOk := fun _ => false }

/-- Witness for C3: with `oracles3` the second of three services fails
to stop, and the aborted run shows every C3 conclusion. -/
theorem c3_witness :
    ((stopNssmLoop oracles3 cfg3.nssm).2 = false
        ∨ (stopDockerLoop oracles3 cfg3.docker).2 = false)
    ∧ ((mainRun cfg3 "2025-10-28 171611" oracles3).exit = 1
        ∧ (∀ ev ∈ (mainRun cfg3 "2025-10-28 171611" oracles3).evs, isStopEv ev = true)
        ∧ (mainRun cfg3 "2025-10-28 171611" oracles3).evs.filterMap stopName
            = (declaredStops cfg3).take
                ((mainRun cfg3 "2025-10-28 171611" oracles3).evs.filterMap stopName).length
        ∧ (∃ e, (mainRun cfg3 "2025-10-28 171611" oracles3).evs.getLast? = some e
            ∧ stopOutcome e = some false)
        ∧ (∀ e ∈ (mainRun cfg3 "2025-10-28 171611" oracles3).evs.dropLast,
            stopOutcome e = some true)) :=
  ⟨Or.inl (by decide),
    c3_quiesce_failure_aborts cfg3 "2025-10-28 171611" oracles3 (Or.inl (by decide))⟩

/-- Witness for C9: with `oraclesOk` both quiescing and archiving
succeed, a restart fails and every prune removal fails, yet the exit
code is 0 and all workloads are attempted for restart, services first
and docker projects after, in the declared order. -/
theorem c9_witness :
    ((stopNssmLoop oraclesOk cfg3.nssm).2 = true
      ∧ (stopDockerLoop oraclesOk cfg3.docker).2 = true
      ∧ (archiveNssmLoop oraclesOk cfg3.backup_root "2025-10-28 171611" cfg3.nssm).2 = true
      ∧ (archiveDockerLoop oraclesOk cfg3.backup_root "2025-10-28 171611"
          cfg3.docker_root cfg3.docker).2 = true)
    ∧ ((mainRun cfg3 "2025-10-28 171611" oraclesOk).exit = 0
        ∧ (mainRun cfg3 "2025-10-28 171611" oraclesOk).evs.filterMap startSvcName
            = cfg3.nssm.filterMap effService
        ∧ (mainRun cfg3 "2025-10-28 171611" oraclesOk).evs.filterMap startDockerName
            = cfg3.docker
        ∧ (mainRun cfg3 "2025-10-28 171611" oraclesOk).evs.filterMap startName
            = declaredStops cfg3) :=
  ⟨⟨by decide, by decide, by decide, by decide⟩,
    c9_success_exit_zero_full_restart cfg3 "2025-10-28 171611" oraclesOk
      (by decide) (by decide) (by decide) (by decide)⟩

/-- Witness for C8: the names of `store10` are distinct, and a second
prune over the survivors of the first prune deletes nothing. -/
theorem c8_witness :
    (store10.map DirEntry.name).Nodup
    ∧ cleanupToDelete now20 5 3 (cleanupSurvivors now20 5 3 store10) = [] :=
  ⟨by decide, c8_prune_idempotent now20 5 3 store10 (by decide)⟩

/-! ## Claim C6 -/

def c6src : WPath := ⟨"C:", ["alpha", "p", "data"]⟩

def c6src2 : WPath := ⟨"C:", ["beta", "p", "data"]⟩

def c6root : WPath := ⟨"D:", ["backup"]⟩

/-- C6 is false on the code: the destination keeps only the immediate
parent directory name, so `C:\alpha\p\data` and `C:\beta\p\data` collide
at the same archive path, the component `alpha` appears nowhere in the
destination, the layout nests the timestamp under the drive letter
(`backup/C/<ts>/...`) rather than rooting it at
`snapshotStoreRoot/<timestampId>/`, and the destination differs from the
spec-modelled one. -/
theorem c6_counterexample :
    nssmDest c6root "2025-10-28 171611" c6src
      = nssmDest c6root "2025-10-28 171611" c6src2
    ∧ c6src ≠ c6src2
    ∧ "alpha" ∉ (nssmDest c6root "2025-10-28 171611" c6src).parts
    ∧ nssmDest c6root "2025-10-28 171611" c6src
        ≠ specDest c6root "2025-10-28 171611" c6src
    ∧ (nssmDest c6root "2025-10-28 171611" c6src).parts
        = ["backup", "C", "2025-10-28 171611", "p", "data.zip"] := by
  refine ⟨rfl, by decide, by decide, by decide, rfl⟩

theorem archivePaths_dest (O : Oracles) (R : WPath) (T : String) (ps : List WPath) :
    ∀ s d ok, Ev.archive s d ok ∈ (archivePaths O R T ps).1 → d = nssmDest R T s := by
  induction ps with
  | nil =>
    intro s d ok hev
    exact absurd hev (List.not_mem_nil _)
  | cons p ps ih =>
    intro s d ok hev
    by_cases hex : O.srcExists p = false
    · rw [show archivePaths O R T (p :: ps)
            = (Ev.skipMissing p :: (archivePaths O R T ps).1, (archivePaths O R T ps).2) by
          simp [archivePaths, hex]] at hev
      rcases List.mem_cons.mp hev with h2 | h2
      · exact absurd h2 (by simp)
      · exact ih s d ok h2
    · by_cases hz : O.zipOk p
      · rw [show archivePaths O R T (p :: ps)
              = (Ev.archive p (nssmDest R T p) true :: (archivePaths O R T ps).1,
                  (archivePaths O R T ps).2) by
            simp [archivePaths, hex, hz]] at hev
        rcases List.mem_cons.mp hev with h2 | h2
        · rcases Ev.archive.injEq .. ▸ h2 with ⟨rfl, rfl, rfl⟩
          rfl
        · exact ih s d ok h2
      · rw [show archivePaths O R T (p :: ps)
              = ([Ev.archive p (nssmDest R T p) false], false) by
            simp [archivePaths, hex, hz]] at hev
        rcases Ev.archive.injEq .. ▸ List.mem_singleton.mp hev with ⟨rfl, rfl, rfl⟩
        rfl

theorem archiveNssmLoop_dest (O : Oracles) (R : WPath) (T : String) (l : List NssmItem) :
    ∀ s d ok, Ev.archive s d ok ∈ (archiveNssmLoop O R T l).1 → d = nssmDest R T s := by
  induction l with
  | nil =>
    intro s d ok hev
    exact absurd hev (List.not_mem_nil _)
  | cons i l ih =>
    intro s d ok hev
    by_cases hr : (archivePaths O R T i.paths).2
    · rw [show archiveNssmLoop O R T (i :: l)
            = ((archivePaths O R T i.paths).1 ++ (archiveNssmLoop O R T l).1,
                (archiveNssmLoop O R T l).2) by
          simp [archiveNssmLoop, hr]] at hev
      rcases List.mem_append.mp hev with h2 | h2
      · exact archivePaths_dest O R T i.paths s d ok h2
      · exact ih s d ok h2
    · rw [show archiveNssmLoop O R T (i :: l) = ((archivePaths O R T i.paths).1, false) by
          simp [archiveNssmLoop, hr]] at hev
      exact archivePaths_dest O R T i.paths s d ok hev

theorem archiveDockerLoop_dest (O : Oracles) (R : WPath) (T : String) (DR : WPath)
    (l : List String) :
    ∀ s d ok, Ev.archive s d ok ∈ (archiveDockerLoop O R T DR l).1 →
      ∃ name ∈ l, s = ⟨DR.drive, DR.parts ++ [name]⟩ ∧ d = dockerDest R T DR name := by
  induction l with
  | nil =>
    intro s d ok hev
    exact absurd hev (List.not_mem_nil _)
  | cons name l ih =>
    intro s d ok hev
    by_cases hex : O.dockerSrcExists name = false
    · rw [show archiveDockerLoop O R T DR (name :: l)
            = (Ev.skipMissing ⟨DR.drive, DR.parts ++ [name]⟩
                :: (archiveDockerLoop O R T DR l).1, (archiveDockerLoop O R T DR l).2) by
          simp [archiveDockerLoop, hex]] at hev
      rcases List.mem_cons.mp hev with h2 | h2
      · exact absurd h2 (by simp)
      · rcases ih s d ok h2 with ⟨m, hm, hsm, hdm⟩
        exact ⟨m, List.mem_cons_of_mem name hm, hsm, hdm⟩
    · by_cases hz : O.dockerZipOk name
      · rw [show archiveDockerLoop O R T DR (name :: l)
              = (Ev.archive ⟨DR.drive, DR.parts ++ [name]⟩ (dockerDest R T DR name) true
                  :: (archiveDockerLoop O R T DR l).1, (archiveDockerLoop O R T DR l).2) by
            simp [archiveDockerLoop, hex, hz]] at hev
        rcases List.mem_cons.mp hev with h2 | h2
        · rcases Ev.archive.injEq .. ▸ h2 with ⟨rfl, rfl, rfl⟩
          exact ⟨name, List.mem_cons_self name l, rfl, rfl⟩
        · rcases ih s d ok h2 with ⟨m, hm, hsm, hdm⟩
          exact ⟨m, List.mem_cons_of_mem name hm, hsm, hdm⟩
      · rw [show archiveDockerLoop O R T DR (name :: l)
              = ([Ev.archive ⟨DR.drive, DR.parts ++ [name]⟩ (dockerDest R T DR name) false],
                  false) by
            simp [archiveDockerLoop, hex, hz]] at hev
        rcases Ev.archive.injEq .. ▸ List.mem_singleton.mp hev with ⟨rfl, rfl, rfl⟩
        exact ⟨name, List.mem_cons_self name l, rfl, rfl⟩

theorem stopNssmLoop_all_stop (O : Oracles) (l : List NssmItem) :
    ∀ ev ∈ (stopNssmLoop O l).1, isStopEv ev = true := by
  rcases stopNssmLoop_spec O l with ⟨-, hevs⟩ | ⟨-, pre, rest, n, -, hevs⟩ <;>
    rw [hevs] <;> intro ev hev
  · exact isStopEv_svc_map _ ev hev
  · rcases List.mem_append.mp hev with h2 | h2
    · exact isStopEv_svc_map pre ev h2
    · rw [List.mem_singleton.mp h2]
      rfl

theorem stopDockerLoop_all_stop (O : Oracles) (l : List String) :
    ∀ ev ∈ (stopDockerLoop O l).1, isStopEv ev = true := by
  rcases stopDockerLoop_spec O l with ⟨-, hevs⟩ | ⟨-, pre, rest, n, -, hevs⟩ <;>
    rw [hevs] <;> intro ev hev
  · exact isStopEv_docker_map _ ev hev
  · rcases List.mem_append.mp hev with h2 | h2
    · exact isStopEv_docker_map pre ev h2
    · rw [List.mem_singleton.mp h2]
      rfl

theorem restartNssmLoop_all_start (O : Oracles) (l : List NssmItem) :
    ∀ ev ∈ restartNssmLoop O l, isStartEv ev = true := by
  induction l with
  | nil =>
    intro ev hev
    exact absurd hev (List.not_mem_nil ev)
  | cons i l ih =>
    intro ev hev
    cases hsvc : effService i with
    | none =>
      rw [show restartNssmLoop O (i :: l) = restartNssmLoop O l by
          simp [restartNssmLoop, hsvc]] at hev
      exact ih ev hev
    | some name =>
      rw [show restartNssmLoop O (i :: l)
            = Ev.startSvc name (start_service (O.netStart name) (O.waitRunning name))
                :: restartNssmLoop O l by
          simp only [restartNssmLoop, hsvc]] at hev
      rcases List.mem_cons.mp hev with rfl | h2
      · rfl
      · exact ih ev h2

theorem restartDockerLoop_all_start (O : Oracles) (l : List String) :
    ∀ ev ∈ restartDockerLoop O l, isStartEv ev = true := by
  induction l with
  | nil =>
    intro ev hev
    exact absurd hev (List.not_mem_nil ev)
  | cons name l ih =>
    intro ev hev
    rcases List.mem_cons.mp hev with rfl | h2
    · rfl
    · exact ih ev h2

/-- C6 amended: every archive the pipeline writes goes to
`backup_root / drive-letter / timestamp / parent-name / (base + ".zip")`
— the drive letter comes first and the timestamp nests under it, and
`parent-name` is only the name of the source's immediate parent
directory (`"root"`, or `"docker"` for docker projects, when there is
none), so all other ancestor components of the source path are dropped
(`c6_counterexample` shows two sources colliding on one destination). -/
theorem c6_dest_keeps_only_parent_name (cfg : Config) (T : String) (O : Oracles)
    (s d : WPath) (ok : Bool) (h : Ev.archive s d ok ∈ (mainRun cfg T O).evs) :
    d = nssmDest cfg.backup_root T s
    ∨ ∃ name ∈ cfg.docker, s = ⟨cfg.docker_root.drive, cfg.docker_root.parts ++ [name]⟩
        ∧ d = dockerDest cfg.backup_root T cfg.docker_root name := by
  by_cases b1 : (stopNssmLoop O cfg.nssm).2 = false
  · rw [show mainRun cfg T O = ⟨(stopNssmLoop O cfg.nssm).1, 1⟩ by simp [mainRun, b1]] at h
    have := stopNssmLoop_all_stop O cfg.nssm _ h
    simp [isStopEv] at this
  have b1t : (stopNssmLoop O cfg.nssm).2 = true := by
    revert b1
    cases (stopNssmLoop O cfg.nssm).2 <;> simp
  by_cases b2 : (stopDockerLoop O cfg.docker).2 = false
  · rw [show mainRun cfg T O
        = ⟨(stopNssmLoop O cfg.nssm).1 ++ (stopDockerLoop O cfg.docker).1, 1⟩ by
      simp [mainRun, b1t, b2]] at h
    dsimp only at h
    rcases List.mem_append.mp h with h2 | h2
    · have := stopNssmLoop_all_stop O cfg.nssm _ h2
      simp [isStopEv] at this
    · have := stopDockerLoop_all_stop O cfg.docker _ h2
      simp [isStopEv] at this
  have b2t : (stopDockerLoop O cfg.docker).2 = true := by
    revert b2
    cases (stopDockerLoop O cfg.docker).2 <;> simp
  by_cases b3 : (archiveNssmLoop O cfg.backup_root T cfg.nssm).2 = false
  · rw [show mainRun cfg T O
        = ⟨(stopNssmLoop O cfg.nssm).1 ++ (stopDockerLoop O cfg.docker).1
            ++ (archiveNssmLoop O cfg.backup_root T cfg.nssm).1, 1⟩ by
      simp [mainRun, b1t, b2t, b3]] at h
    dsimp only at h
    rcases List.mem_append.mp h with h2 | h2
    · rcases List.mem_append.mp h2 with h3 | h3
      · have := stopNssmLoop_all_stop O cfg.nssm _ h3
        simp [isStopEv] at this
      · have := stopDockerLoop_all_stop O cfg.docker _ h3
        simp [isStopEv] at this
    · exact Or.inl (archiveNssmLoop_dest O cfg.backup_root T cfg.nssm s d ok h2)
  have b3t : (archiveNssmLoop O cfg.backup_root T cfg.nssm).2 = true := by
    revert b3
    cases (archiveNssmLoop O cfg.backup_root T cfg.nssm).2 <;> simp
  by_cases b4 : (archiveDockerLoop O cfg.backup_root T cfg.docker_root cfg.docker).2 = false
  · rw [show mainRun cfg T O
        = ⟨(stopNssmLoop O cfg.nssm).1 ++ (stopDockerLoop O cfg.docker).1
            ++ (archiveNssmLoop O cfg.backup_root T cfg.nssm).1
            ++ (archiveDockerLoop O cfg.backup_root T cfg.docker_root cfg.docker).1, 1⟩ by
      simp [mainRun, b1t, b2t, b3t, b4]] at h
    dsimp only at h
    rcases List.mem_append.mp h with h2 | h2
    · rcases List.mem_append.mp h2 with h3 | h3
      · rcases List.mem_append.mp h3 with h4 | h4
        · have := stopNssmLoop_all_stop O cfg.nssm _ h4
          simp [isStopEv] at this
        · have := stopDockerLoop_all_stop O cfg.docker _ h4
          simp [isStopEv] at this
      · exact Or.inl (archiveNssmLoop_dest O cfg.backup_root T cfg.nssm s d ok h3)
    · exact Or.inr
        (archiveDockerLoop_dest O cfg.backup_root T cfg.docker_root cfg.docker s d ok h2)
  have b4t : (archiveDockerLoop O cfg.backup_root T cfg.docker_root cfg.docker).2 = true := by
    revert b4
    cases (archiveDockerLoop O cfg.backup_root T cfg.docker_root cfg.docker).2 <;> simp
  rw [show mainRun cfg T O
      = ⟨(stopNssmLoop O cfg.nssm).1 ++ (stopDockerLoop O cfg.docker).1
          ++ (archiveNssmLoop O cfg.backup_root T cfg.nssm).1
          ++ (archiveDockerLoop O cfg.backup_root T cfg.docker_root cfg.docker).1
          ++ restartNssmLoop O cfg.nssm ++ restartDockerLoop O cfg.docker
          ++ pruneEvents O cfg, 0⟩ by
    simp [mainRun, b1t, b2t, b3t, b4t]] at h
  dsimp only at h
  rcases List.mem_append.mp h with h2 | h2
  swap
  · have := pruneEvents_kinds O cfg _ h2
    simp [isPruneEv] at this
  rcases List.mem_append.mp h2 with h3 | h3
  swap
  · have := restartDockerLoop_all_start O cfg.docker _ h3
    simp [isStartEv] at this
  rcases List.mem_append.mp h3 with h4 | h4
  swap
  · have := restartNssmLoop_all_start O cfg.nssm _ h4
    simp [isStartEv] at this
  rcases List.mem_append.mp h4 with h5 | h5
  swap
  · exact Or.inr
      (archiveDockerLoop_dest O cfg.backup_root T cfg.docker_root cfg.docker s d ok h5)
  rcases List.mem_append.mp h5 with h6 | h6
  swap
  · exact Or.inl (archiveNssmLoop_dest O cfg.backup_root T cfg.nssm s d ok h6)
  rcases List.mem_append.mp h6 with h7 | h7
  · have := stopNssmLoop_all_stop O cfg.nssm _ h7
    simp [isStopEv] at this
  · have := stopDockerLoop_all_stop O cfg.docker _ h7
    simp [isStopEv] at this

/-- Witness for the amended C6: in the successful concrete run the
service path `C:\data\a` is archived, and its destination is the code's
`nssmDest` form. -/
theorem c6_witness :
    Ev.archive ⟨"C:", ["data", "a"]⟩
        (nssmDest cfg3.backup_root "2025-10-28 171611" ⟨"C:", ["data", "a"]⟩) true
      ∈ (mainRun cfg3 "2025-10-28 171611" oraclesOk).evs
    ∧ ((nssmDest cfg3.backup_root "2025-10-28 171611" ⟨"C:", ["data", "a"]⟩
          = nssmDest cfg3.backup_root "2025-10-28 171611" ⟨"C:", ["data", "a"]⟩)
        ∨ ∃ name ∈ cfg3.docker,
            (⟨"C:", ["data", "a"]⟩ : WPath)
              = ⟨cfg3.docker_root.drive, cfg3.docker_root.parts ++ [name]⟩
            ∧ nssmDest cfg3.backup_root "2025-10-28 171611" ⟨"C:", ["data", "a"]⟩
              = dockerDest cfg3.backup_root "2025-10-28 171611" cfg3.docker_root name) :=
  ⟨by decide,
    c6_dest_keeps_only_parent_name cfg3 "2025-10-28 171611" oraclesOk
      ⟨"C:", ["data", "a"]⟩ _ true (by decide)⟩

/-! ## Claim C5 -/

def cfgC5 : Config :=
  { backup_root := ⟨"D:", ["backup"]⟩
    retention_days := 7
    retention_min := 3
    nssm := [⟨some "svcA", []⟩, ⟨some "svcB", []⟩]
    docker := []
    docker_root := ⟨"C:", ["ProgramData", "Docker"]⟩ }

/-- Every stop command reports "The service is not started." -/
def oraclesC5 : Oracles :=
  { netStop := fun _ => alreadyStoppedOutcome
    waitStopped := fun _ => true
    netStart := fun _ => .completed 0 "" ""
    waitRunning := fun _ => true
    composeExists := fun _ => true
    dockerStop := fun _ => .completed 0 "" ""
    dockerStart := fun _ => .completed 0 "" ""
    srcExists := fun _ => true
    dockerSrcExists := fun _ => true
    zipOk := fun _ => true
    dockerZipOk := fun _ => true
    now := now20
    dirListing := fun _ => store10
    rmtreeOk := fun _ => true }

/-- C5 is false on the code: the already-stopped response of `net stop`
exits with code 2, `stop_service` inspects only the return code and
fails, and the pipeline aborts at the first workload with exit status 1
— the second workload is never reached, instead of the claimed
"counts as success, continue". -/
theorem c5_counterexample :
    stop_service alreadyStoppedOutcome true = false
    ∧ (mainRun cfgC5 "2025-10-28 171611" oraclesC5).exit = 1
    ∧ (mainRun cfgC5 "2025-10-28 171611" oraclesC5).evs = [Ev.stopSvc "svcA" false] := by
  refine ⟨rfl, by decide, by decide⟩

/-- C5 amended: `stop_service` treats a stop result as success exactly
when the command completed with return code 0 (and the subsequent state
check passes); no output text is consulted, so the nonzero
"service is not started" (already stopped) response is a failure like
any other and aborts the run. -/
theorem c5_stop_success_iff_returncode_zero (o : CmdOutcome) (w : Bool) :
    (stop_service o w = true ↔ (∃ out err, o = CmdOutcome.completed 0 out err) ∧ w = true)
    ∧ stop_service alreadyStoppedOutcome w = false := by
  constructor
  · constructor
    · intro h
      unfold stop_service at h
      by_cases ho : (runCmd o).ok = true
      · rw [if_pos ho] at h
        refine ⟨?_, h⟩
        cases o with
        | completed rc out err =>
          have hrc : rc = 0 := by
            simpa [runCmd] using ho
          exact ⟨out, err, by rw [hrc]⟩
        | timedOut m => simp [runCmd] at ho
        | raised m => simp [runCmd] at ho
      · rw [if_neg ho] at h
        exact absurd h Bool.false_ne_true
    · rintro ⟨⟨out, err, rfl⟩, hw⟩
      simp [stop_service, runCmd, hw]
  · simp [stop_service, runCmd, alreadyStoppedOutcome]

/-! ## Claim C4 -/

/-- C4 is false on the code: `zip_path_no_compress` opens the archive
directly at the final destination and its failure branch only logs;
failing after the first of two members returns `False` but leaves a
partially written file at the destination, which held no file before
the call. -/
theorem c4_counterexample :
    (zip_path_no_compress none ["a", "b"] (some 1)).2 = false
    ∧ (zip_path_no_compress none ["a", "b"] (some 1)).1 = some ["a"]
    ∧ ¬ (zip_path_no_compress none ["a", "b"] (some 1)).1 = none := by
  refine ⟨rfl, rfl, by decide⟩

/-- C4 amended: whenever writing member `k` of the archive fails, the
call returns `False` and a partially written file — holding exactly the
members written before the failure — remains at the final destination
path, whatever was there before the call. -/
theorem c4_failure_leaves_stale_file (pre : Option (List String)) (walkFiles : List String)
    (k : Nat) (hk : k < walkFiles.length) :
    zip_path_no_compress pre walkFiles (some k) = (some (walkFiles.take k), false) := by
  simp only [zip_path_no_compress, hk, if_true]

/-- Witness for the amended C4 at a concrete input. -/
theorem c4_witness :
    1 < (["a", "b"] : List String).length
    ∧ zip_path_no_compress none ["a", "b"] (some 1) = (some ["a"], false) :=
  ⟨by decide, c4_failure_leaves_stale_file none ["a", "b"] 1 (by decide)⟩
